import Mathlib

/-!
Shallow embedding of `scapy/contrib/automotive/scanner/enumerator.py`
(classes `ServiceEnumerator` and `StateGeneratingServiceEnumerator`).

Modelling conventions:
* `EcuState` is abstracted to `Nat` (states are hashable, equality-checkable
  values supplied by an external collaborator).
* A `Packet` is modelled by its raw byte content, its parsed `service` byte,
  its `sent_time` / `time` timestamps (rationals; the Python floats are
  idealised as exact rationals), and a `pid` tag that distinguishes distinct
  runtime instances with equal byte content (object identity).
* The abstract methods `_get_negative_response_code`,
  `EcuState.is_modifier_pkt` and `EcuState.get_modified_ecu_state` are
  collaborator interfaces (not in this file's source); they are passed as
  function parameters.
* Python dicts are modelled as insertion-ordered association lists;
  `defaultdict(lambda: None)` is an association list whose missing keys read
  as `none`.
* The socket is modelled by a script: a list of per-exchange outcomes
  (either a raised `OSError/ValueError/Scapy_Exception`, or a received
  `Option Packet` together with the socket's `closed` flag and the wall
  clock value observed after the exchange).
-/

namespace ScannerEnum

/-- Raw byte content of a packet, `bytes(p)` in the source. -/
abbrev Bytes := List Nat

/-- Device state (`EcuState`); an externally supplied comparable value. -/
abbrev EcuState := Nat

/-- A packet instance.  `pid` models Python object identity: two instances
with equal `content` may still be different objects. -/
structure Packet where
  pid : Nat
  content : Bytes
  service : Nat
  sent_time : Option ℚ
  time : ℚ
  deriving DecidableEq

/-- `_AutomotiveTestCaseScanResult` named tuple. -/
structure ScanResult where
  state : EcuState
  req : Packet
  resp : Option Packet
  req_ts : ℚ
  resp_ts : Option ℚ
  deriving DecidableEq

/-- Value stored in `_retry_pkt`: `Packet` or an iterable of packets
(`Union[Packet, Iterable[Packet]]` in the source). -/
inductive RetryEntry where
  | pkt (p : Packet)
  | seq (l : List Packet)
  deriving DecidableEq

/-- First-match lookup in an association list (Python `d[k]` / `k in d`). -/
def alookup {α β : Type} [DecidableEq α] : List (α × β) → α → Option β
  | [], _ => none
  | (k', v) :: rest, k => if k' = k then some v else alookup rest k

/-- Update (or append) a key in an association list (Python `d[k] = v`). -/
def aupdate {α β : Type} [DecidableEq α] : List (α × β) → α → β → List (α × β)
  | [], k, v => [(k, v)]
  | (k', v') :: rest, k, v =>
      if k' = k then (k, v) :: rest else (k', v') :: aupdate rest k v

/-- Mutable state of a `ServiceEnumerator` instance. -/
structure Enumerator where
  /-- `__result_packets`: insertion-ordered interned-packet table. -/
  result_packets : List (Bytes × Packet)
  /-- `_results`: append-only list of scan results. -/
  results : List ScanResult
  /-- `_request_iterators`: per-state memoized cursor into the initial
  request generator, modelled by the list of requests not yet drawn. -/
  request_iterators : List (EcuState × List Packet)
  /-- `_retry_pkt`: defaultdict mapping state to an optional retry entry. -/
  retry_pkt : List (EcuState × Option RetryEntry)
  /-- `_negative_response_blacklist` (seeded `[0x10, 0x11]`). -/
  negative_response_blacklist : List Nat
  /-- `_state_completed` dict of the base class. -/
  state_completed : List (EcuState × Bool)
  deriving DecidableEq

/-- A fresh `ServiceEnumerator` as built by `__init__`. -/
def initEnum : Enumerator :=
  { result_packets := []
    results := []
    request_iterators := []
    retry_pkt := []
    negative_response_blacklist := [0x10, 0x11]
    state_completed := [] }

/-- Read `self._retry_pkt[state]` (missing key defaults to `None`). -/
def Enumerator.retryLookup (e : Enumerator) (state : EcuState) :
    Option RetryEntry :=
  match alookup e.retry_pkt state with
  | none => none
  | some v => v

/-- Write `self._retry_pkt[state] = v`. -/
def Enumerator.setRetry (e : Enumerator) (state : EcuState)
    (v : Option RetryEntry) : Enumerator :=
  { e with retry_pkt := aupdate e.retry_pkt state v }

/-- Write `self._request_iterators[state] = l`. -/
def Enumerator.setRegistry (e : Enumerator) (state : EcuState)
    (l : List Packet) : Enumerator :=
  { e with request_iterators := aupdate e.request_iterators state l }

/-- Write `self._state_completed[state] = True`. -/
def Enumerator.markCompleted (e : Enumerator) (state : EcuState) :
    Enumerator :=
  { e with state_completed := aupdate e.state_completed state true }

/-- The recognized keyword options of `execute` / `_evaluate_response`,
with their defaults. -/
structure EvalOptions where
  exit_if_no_answer_received : Bool := false
  exit_if_service_not_supported : Bool := false
  retry_if_busy_returncode : Bool := true
  exit_scan_on_first_negative_response : Bool := false
  deriving DecidableEq

/-- `ServiceEnumerator._evaluate_response`.  Returns the stop decision
(`True` = stop this `execute` call) and the updated enumerator.
`nrcOf` is the abstract `_get_negative_response_code`; `isMod` is
`EcuState.is_modifier_pkt`; `applyMod` is
`EcuState.get_modified_ecu_state`. -/
def evaluate_response (nrcOf : Packet → Nat) (isMod : Packet → Bool)
    (applyMod : Packet → Packet → EcuState → EcuState)
    (opts : EvalOptions) (state : EcuState) (request : Packet)
    (response : Option Packet) (e : Enumerator) : Bool × Enumerator :=
  match response with
  | none =>
      -- Nothing to evaluate, return and continue execute
      (opts.exit_if_no_answer_received, e)
  | some resp =>
      if opts.exit_scan_on_first_negative_response ∧ resp.service = 0x7f then
        (true, e)
      else if opts.exit_if_service_not_supported ∧ resp.service = 0x7f ∧
          (nrcOf resp = 0x11 ∨ nrcOf resp = 0x7f) then
        -- serviceNotSupported: state completed, stop current execute
        (true, e.markCompleted state)
      else if opts.retry_if_busy_returncode ∧ resp.service = 0x7f ∧
          nrcOf resp = 0x21 then
        match e.retryLookup state with
        | none =>
            -- This was no retry since the retry_pkt is None
            (true, e.setRetry state (some (.pkt request)))
        | some _ =>
            -- This was a unsuccessful retry, continue execute
            (false, e.setRetry state none)
      else
        let e1 := e.setRetry state none
        if isMod resp ∧ state ≠ applyMod resp request state then
          (true, e1)
        else
          (false, e1)

/-- Intern a packet in `__result_packets` (insert only if its byte content
is not yet a key). -/
def intern (e : Enumerator) (p : Packet) : Enumerator :=
  if (alookup e.result_packets p.content).isSome then e
  else { e with result_packets := e.result_packets ++ [(p.content, p)] }

/-- `ServiceEnumerator._store_result`.  The request is interned first, then
the response (a response object is always truthy here: responses carry at
least a service byte, so `if res and ...` reduces to `res is not None`).
The appended result references the canonical (interned) instances; the
`getD` fallbacks are dead code since the lookups always succeed after
interning.  `req.sent_time or 0.0` maps both `None` and `0.0` to `0.0`,
which `Option.getD 0` reproduces. -/
def store_result (state : EcuState) (req : Packet) (res : Option Packet)
    (e : Enumerator) : Enumerator :=
  let e1 := intern e req
  let e2 := match res with
    | some r => intern e1 r
    | none => e1
  { e2 with results := e2.results ++ [{
      state := state
      req := (alookup e2.result_packets req.content).getD req
      resp := match res with
        | some r => some ((alookup e2.result_packets r.content).getD r)
        | none => none
      req_ts := req.sent_time.getD 0
      resp_ts := res.map (·.time) }] }

/-- `__get_retry_iterator`: render the retry slot as a request list. -/
def get_retry_iterator (e : Enumerator) (state : EcuState) : List Packet :=
  match e.retryLookup state with
  | none => []
  | some (.pkt p) => [p]
  | some (.seq l) => l

/-- One socket exchange outcome, as observed by `execute`:
either `sr1` raises (`OSError`/`ValueError`/`Scapy_Exception`), or it
returns an optional response; `closed` is the socket's closed flag right
after the exchange, `now` the wall clock read by the budget check. -/
inductive SockOutcome where
  | exn
  | recv (res : Option Packet) (closed : Bool) (now : ℚ)
  deriving DecidableEq

/-- Why an `execute` call ended. `stuck` is a model artifact: the socket
script ran out while requests remained (no Python counterpart; a real
socket always produces an outcome). -/
inductive StopKind where
  | raised | closedStop | evalStop | budgetStop | finished | stuck
  deriving DecidableEq

/-- Instrumentation record of one exchange inside `execute`: the request
sent, the retry slot of `state` just before the exchange, and the socket
outcome. -/
structure ExchRec where
  req : Packet
  slotBefore : Option RetryEntry
  out : SockOutcome
  deriving DecidableEq

/-- Static inputs of one `execute` call. -/
structure ExecCfg where
  opts : EvalOptions
  nrcOf : Packet → Nat
  isMod : Packet → Bool
  applyMod : Packet → Packet → EcuState → EcuState
  start_time : ℚ
  execution_time : ℚ := 1200

/-- Result of processing one request inside the `execute` loop. -/
inductive StepRes where
  | halt (k : StopKind) (e : Enumerator)
  | cont (e : Enumerator)

/-- Body of one iteration of the `for req in it` loop in `execute`:
the try/except around `sr1`, the `socket.closed` check, `_store_result`,
`_evaluate_response` and the execution-time budget check. -/
def exchange (cfg : ExecCfg) (state : EcuState) (req : Packet)
    (out : SockOutcome) (e : Enumerator) : StepRes :=
  match out with
  | .exn =>
      -- except (OSError, ValueError, Scapy_Exception): install the retry
      -- packet if none is pending, then re-raise.
      let e' := match e.retryLookup state with
        | none => e.setRetry state (some (.pkt req))
        | some _ => e
      .halt .raised e'
  | .recv res closed now =>
      if closed then .halt .closedStop e
      else
        let p := evaluate_response cfg.nrcOf cfg.isMod cfg.applyMod
          cfg.opts state req res (store_result state req res e)
        if p.1 then .halt .evalStop p.2
        else if cfg.start_time + cfg.execution_time < now then
          .halt .budgetStop p.2
        else .cont p.2

/-- The `execute` loop once the retry items are exhausted and requests are
drawn from the memoized initial-request iterator; drawing a request
advances the shared registry cursor (`_request_iterators[state]`). -/
def loopFresh (cfg : ExecCfg) (state : EcuState) :
    List Packet → List SockOutcome → Enumerator → List ExchRec →
    StopKind × Enumerator × List ExchRec
  | [], _, e, tr => (.finished, e.markCompleted state, tr)
  | req :: rest, script, e, tr =>
      match script with
      | [] => (.stuck, e, tr)
      | out :: script' =>
          let e0 := e.setRegistry state rest
          let rec0 : ExchRec := ⟨req, e0.retryLookup state, out⟩
          match exchange cfg state req out e0 with
          | .halt k e' => (k, e', tr ++ [rec0])
          | .cont e' => loopFresh cfg state rest script' e' (tr ++ [rec0])

/-- The `execute` loop while requests still come from the rendered retry
iterator (these draws do not touch the registry). -/
def loopRetry (cfg : ExecCfg) (state : EcuState) :
    List Packet → List Packet → List SockOutcome → Enumerator →
    List ExchRec → StopKind × Enumerator × List ExchRec
  | [], freshL, script, e, tr => loopFresh cfg state freshL script e tr
  | req :: rest, freshL, script, e, tr =>
      match script with
      | [] => (.stuck, e, tr)
      | out :: script' =>
          let rec0 : ExchRec := ⟨req, e.retryLookup state, out⟩
          match exchange cfg state req out e with
          | .halt k e' => (k, e', tr ++ [rec0])
          | .cont e' => loopRetry cfg state rest freshL script' e' (tr ++ [rec0])

/-- `ServiceEnumerator.execute`.  `initial` is the sequence produced by the
abstract `_get_initial_requests(**kwargs)`; `script` drives the socket.
`__get_initial_request_iterator` memoizes the iterator on first use;
`__get_request_iterator` chains the rendered retry items in front of it.
Returns the stop kind, the final enumerator and the exchange trace. -/
def execute (cfg : ExecCfg) (state : EcuState) (initial : List Packet)
    (script : List SockOutcome) (e : Enumerator) :
    StopKind × Enumerator × List ExchRec :=
  let e1 := if (alookup e.request_iterators state).isSome then e
            else e.setRegistry state initial
  let retryL := get_retry_iterator e1 state
  let memo := (alookup e1.request_iterators state).getD initial
  loopRetry cfg state retryL memo script e1 []

/-- Is this result's response present and negative (`r.resp and
r.resp.service == 0x7f`)? -/
def isNegResult (r : ScanResult) : Bool :=
  match r.resp with
  | some p => p.service = 0x7f
  | none => false

/-- Property `results_with_negative_response`. -/
def results_with_negative_response (e : Enumerator) : List ScanResult :=
  e.results.filter isNegResult

/-- Keys of `nrc_dict` in Python dict order: first occurrence first. -/
def firstOccs (l : List Nat) : List Nat :=
  l.foldl (fun acc c => if c ∈ acc then acc else acc ++ [c]) []

/-- One iteration of the `for nrc, nr_count in nrc_dict.items()` loop of
`_prepare_negative_response_blacklist` for code `c` with count `cnt` out
of `total` negative responses.  The float comparison
`(nr_count / total_nr_count) > 0.3` is modelled exactly on rationals as
`cnt * 10 > total * 3`. -/
def blacklistStep (total : Nat) (cnt : Nat) (bl : List Nat) (c : Nat) :
    List Nat :=
  let bl1 := if c ∉ bl ∧ 30 < cnt ∧ total * 3 < cnt * 10
             then bl ++ [c] else bl
  if c ∈ bl1 ∧ cnt < 10 then bl1.erase c else bl1

/-- The population `nrc_dict` is built from: one negative-response code
per result in `results_with_negative_response`, in order. -/
def negCodes (nrcOf : Packet → Nat) (e : Enumerator) : List Nat :=
  (results_with_negative_response e).filterMap (fun r => r.resp.map nrcOf)

/-- `ServiceEnumerator._prepare_negative_response_blacklist`. -/
def prepare_negative_response_blacklist (nrcOf : Packet → Nat)
    (e : Enumerator) : Enumerator :=
  let codes := negCodes nrcOf e
  let total := codes.length
  let bl := (firstOccs codes).foldl
    (fun bl c => blacklistStep total (codes.count c) bl c)
    e.negative_response_blacklist
  { e with negative_response_blacklist := bl }

/-- Round-half-to-even to an integer (Python's `round` tie-breaking). -/
def roundHalfEven (q : ℚ) : ℤ :=
  let f : ℤ := ⌊q⌋
  let r : ℚ := q - f
  if r < 1/2 then f
  else if 1/2 < r then f + 1
  else if f % 2 = 0 then f else f + 1

/-- Python `round(x, 5)`, idealised over the rationals. -/
def roundq5 (q : ℚ) : ℚ := (roundHalfEven (q * 100000) : ℚ) / 100000

/-- The nine values one `data_sets` entry contributes to the table of
`_compute_statistics`.  The source renders each value with `str`; a
missing value (`ValueError` on empty `min`/`max`, `ZeroDivisionError` on
the mean) is the string `"-"`, modelled as `none`. -/
structure DataStats where
  num_answered : Nat
  num_unanswered : Nat
  num_negative_resps : Nat
  answertime_min : Option ℚ
  answertime_max : Option ℚ
  answertime_avg : Option ℚ
  answertime_min_nr : Option ℚ
  answertime_max_nr : Option ℚ
  answertime_avg_nr : Option ℚ
  answertime_min_pr : Option ℚ
  answertime_max_pr : Option ℚ
  answertime_avg_pr : Option ℚ
  deriving DecidableEq

/-- `str(round(max(times), 5))` with `ValueError → "-"`. -/
def statMax (ts : List ℚ) : Option ℚ := ts.max?.map roundq5

/-- `str(round(min(times), 5))` with `ValueError → "-"`. -/
def statMin (ts : List ℚ) : Option ℚ := ts.min?.map roundq5

/-- `str(round(sum(times) / len(times), 5))` with
`ZeroDivisionError → "-"`. -/
def statAvg (ts : List ℚ) : Option ℚ :=
  if ts.length = 0 then none
  else some (roundq5 (ts.sum / (ts.length : ℚ)))

/-- Latency list `answertimes` of `_compute_statistics`: over answered
results, `resp_ts - req_ts` where `resp_ts` exists (`req_ts` is always a
number in a stored result, so its `is not None` guard is vacuous). -/
def answertimes (data : List ScanResult) : List ℚ :=
  (data.filter (·.resp.isSome)).filterMap
    (fun x => x.resp_ts.map (fun t => t - x.req_ts))

/-- `answertimes_nr`: as `answertimes`, restricted to negative responses. -/
def answertimes_nr (data : List ScanResult) : List ℚ :=
  ((data.filter (·.resp.isSome)).filter isNegResult).filterMap
    (fun x => x.resp_ts.map (fun t => t - x.req_ts))

/-- `answertimes_pr`: as `answertimes`, restricted to positive responses. -/
def answertimes_pr (data : List ScanResult) : List ℚ :=
  ((data.filter (·.resp.isSome)).filter (fun r => ¬ isNegResult r)).filterMap
    (fun x => x.resp_ts.map (fun t => t - x.req_ts))

/-- The statistics of one `data_sets` entry of `_compute_statistics`. -/
def stats_of (data : List ScanResult) : DataStats :=
  { num_answered := (data.filter (·.resp.isSome)).length
    num_unanswered := (data.filter (·.resp.isNone)).length
    num_negative_resps := (data.filter isNegResult).length
    answertime_min := statMin (answertimes data)
    answertime_max := statMax (answertimes data)
    answertime_avg := statAvg (answertimes data)
    answertime_min_nr := statMin (answertimes_nr data)
    answertime_max_nr := statMax (answertimes_nr data)
    answertime_avg_nr := statAvg (answertimes_nr data)
    answertime_min_pr := statMin (answertimes_pr data)
    answertime_max_pr := statMax (answertimes_pr data)
    answertime_avg_pr := statAvg (answertimes_pr data) }

/-- `ServiceEnumerator._compute_statistics`.  The first entry is the
`"all"` data set (`none`); one entry follows per key of
`_state_completed`, restricted to that state's results. -/
def compute_statistics (e : Enumerator) :
    List (Option EcuState × DataStats) :=
  (none, stats_of e.results) ::
    e.state_completed.map (fun sc =>
      (some sc.1, stats_of (e.results.filter (fun r => r.state = sc.1))))

/-- State of a `StateGeneratingServiceEnumerator`: the enumerator plus
`_edge_requests`. -/
structure SGEnumerator where
  enum : Enumerator
  edge_requests : List ((EcuState × EcuState) × Packet)
  deriving DecidableEq

/-- `StateGeneratingServiceEnumerator.get_new_edge`.  Inspects
`results[-1]`; `IndexError` (empty results) yields `None`. -/
def get_new_edge (isMod : Packet → Bool)
    (applyMod : Packet → Packet → EcuState → EcuState)
    (sg : SGEnumerator) : Option (EcuState × EcuState) × SGEnumerator :=
  match sg.enum.results.getLast? with
  | none => (none, sg)
  | some r =>
      match r.resp with
      | some resp =>
          if isMod resp then
            let new_state := applyMod resp r.req r.state
            if new_state = r.state then (none, sg)
            else
              let edge := (r.state, new_state)
              (some edge,
                { sg with edge_requests :=
                    aupdate sg.edge_requests edge r.req })
          else (none, sg)
      | none => (none, sg)

/-- A sequence of `_store_result` calls. -/
def storeOps : List (EcuState × Packet × Option Packet) → Enumerator →
    Enumerator
  | [], e => e
  | (s, q, r) :: rest, e => storeOps rest (store_result s q r e)

/-! ### Basic lemmas about association lists -/

lemma alookup_aupdate_self {α β : Type} [DecidableEq α]
    (l : List (α × β)) (k : α) (v : β) :
    alookup (aupdate l k v) k = some v := by
  induction l with
  | nil => simp [aupdate, alookup]
  | cons hd tl ih =>
      obtain ⟨k', v'⟩ := hd
      by_cases h : k' = k
      · simp [aupdate, h, alookup]
      · simp [aupdate, h, alookup, ih]

lemma alookup_aupdate_ne {α β : Type} [DecidableEq α]
    (l : List (α × β)) (k k' : α) (v : β) (h : k ≠ k') :
    alookup (aupdate l k v) k' = alookup l k' := by
  induction l with
  | nil => simp [aupdate, alookup, h]
  | cons hd tl ih =>
      obtain ⟨k0, v0⟩ := hd
      by_cases h0 : k0 = k
      · subst h0
        simp [aupdate, alookup, h]
      · simp [aupdate, h0, alookup, ih]

lemma alookup_append_of_isSome {α β : Type} [DecidableEq α]
    (l t : List (α × β)) (k : α) (h : (alookup l k).isSome) :
    alookup (l ++ t) k = alookup l k := by
  induction l with
  | nil => simp [alookup] at h
  | cons hd tl ih =>
      obtain ⟨k0, v0⟩ := hd
      by_cases h0 : k0 = k
      · simp [alookup, h0]
      · simp only [alookup, h0, if_false, List.cons_append] at h ⊢
        exact ih h

lemma alookup_append_of_none {α β : Type} [DecidableEq α]
    (l t : List (α × β)) (k : α) (h : alookup l k = none) :
    alookup (l ++ t) k = alookup t k := by
  induction l with
  | nil => simp
  | cons hd tl ih =>
      obtain ⟨k0, v0⟩ := hd
      by_cases h0 : k0 = k
      · simp [alookup, h0] at h
      · simp only [alookup, h0, if_false] at h
        simp only [List.cons_append, alookup, h0, if_false]
        exact ih h

lemma retryLookup_setRetry_self (e : Enumerator) (state : EcuState)
    (v : Option RetryEntry) : (e.setRetry state v).retryLookup state = v := by
  simp [Enumerator.setRetry, Enumerator.retryLookup, alookup_aupdate_self]

/-! ### Demo values used by witnesses and counterexamples -/

/-- A concrete request packet. -/
def reqDemo : Packet := ⟨1, [0x22, 0x01], 0x22, some 1, 0⟩

/-- A second request instance with the same bytes but another identity. -/
def reqDemo2 : Packet := ⟨9, [0x22, 0x01], 0x22, some 2, 0⟩

/-- A concrete negative response with code 0x21 (busy). -/
def busyDemo : Packet := ⟨2, [0x7f, 0x22, 0x21], 0x7f, none, 3⟩

/-- A concrete negative response with code 0x33. -/
def negOtherDemo : Packet := ⟨3, [0x7f, 0x22, 0x33], 0x7f, none, 4⟩

/-- A concrete positive response. -/
def posDemo : Packet := ⟨4, [0x62, 0x01], 0x62, none, 5⟩

/-- Concrete negative-response-code extractor: the third byte. -/
def nrcDemo : Packet → Nat := fun p => p.content.getD 2 0

/-- Concrete `is_modifier_pkt` that classifies nothing as modifying. -/
def noMod : Packet → Bool := fun _ => false

/-- Concrete `get_modified_ecu_state` that keeps the state. -/
def applyId : Packet → Packet → EcuState → EcuState := fun _ _ s => s

/-- Concrete `ExecCfg` with default options and a large budget. -/
def cfgDemo : ExecCfg := ⟨{}, nrcDemo, noMod, applyId, 0, 1200⟩

/-! ### C1 -/

/-- C1: with `retry_if_busy_returncode` at its default (all options at
their defaults) and a received negative response (service `0x7f`) whose
negative-response code is `0x21`: if no retry is pending for `state`, the
just-sent request is installed as the retry slot and evaluation stops;
if a retry was pending, the slot is cleared and evaluation continues, so
a request answered busy twice in a row is not sent a third time. -/
theorem c1_busy_retry (nrcOf : Packet → Nat) (isMod : Packet → Bool)
    (applyMod : Packet → Packet → EcuState → EcuState) (state : EcuState)
    (request : Packet) (resp : Packet) (e : Enumerator)
    (hserv : resp.service = 0x7f) (hnrc : nrcOf resp = 0x21) :
    (e.retryLookup state = none →
      evaluate_response nrcOf isMod applyMod {} state request (some resp) e
        = (true, e.setRetry state (some (.pkt request)))) ∧
    (e.retryLookup state ≠ none →
      evaluate_response nrcOf isMod applyMod {} state request (some resp) e
        = (false, e.setRetry state none)) := by
  constructor <;> intro h
  · simp [evaluate_response, hserv, hnrc, h]
  · obtain ⟨x, hx⟩ := Option.ne_none_iff_exists'.mp h
    simp [evaluate_response, hserv, hnrc, hx]

/-- Witness for C1 at a concrete busy response: first occurrence installs
the retry and stops; second occurrence (retry pending) clears and
continues. -/
theorem c1_busy_retry_witness :
    (evaluate_response nrcDemo noMod applyId {} 0 reqDemo (some busyDemo)
        initEnum
      = (true, initEnum.setRetry 0 (some (.pkt reqDemo)))) ∧
    (evaluate_response nrcDemo noMod applyId {} 0 reqDemo (some busyDemo)
        (initEnum.setRetry 0 (some (.pkt reqDemo)))
      = (false, (initEnum.setRetry 0 (some (.pkt reqDemo))).setRetry 0
          none)) :=
  ⟨(c1_busy_retry nrcDemo noMod applyId 0 reqDemo busyDemo initEnum
      (by decide) (by decide)).1 (by decide),
   (c1_busy_retry nrcDemo noMod applyId 0 reqDemo busyDemo
      (initEnum.setRetry 0 (some (.pkt reqDemo))) (by decide)
      (by decide)).2 (by decide)⟩

/-! ### C10 -/

/-- C10, counterexample: a received response that does not enter the
busy-retry branch (its code is `0x33 ≠ 0x21`) need not clear the retry
slot: with `exit_scan_on_first_negative_response` set, evaluation returns
before the clearing assignment, and the pending retry survives. -/
theorem c10_counterexample :
    nrcDemo negOtherDemo = 0x33 ∧
    (evaluate_response nrcDemo noMod applyId
        { exit_scan_on_first_negative_response := true } 0 reqDemo
        (some negOtherDemo)
        (initEnum.setRetry 0 (some (.pkt reqDemo)))).2.retryLookup 0
      = some (.pkt reqDemo) := by decide

/-- C10, amended: on a timeout (no response), `_evaluate_response` leaves
the enumerator (so in particular the retry slot) unchanged; when a
response was received and none of the earlier decisions fires — neither
`exit_scan_on_first_negative_response` on a negative response, nor the
`exit_if_service_not_supported` terminal codes, nor the busy-retry branch
— the state's retry slot is cleared to empty before the state-modifying
check. -/
theorem c10_retry_frame (nrcOf : Packet → Nat) (isMod : Packet → Bool)
    (applyMod : Packet → Packet → EcuState → EcuState) (opts : EvalOptions)
    (state : EcuState) (request : Packet) (response : Option Packet)
    (e : Enumerator) :
    (response = none →
      evaluate_response nrcOf isMod applyMod opts state request response e
        = (opts.exit_if_no_answer_received, e)) ∧
    (∀ r, response = some r →
      ¬ (opts.exit_scan_on_first_negative_response ∧ r.service = 0x7f) →
      ¬ (opts.exit_if_service_not_supported ∧ r.service = 0x7f ∧
          (nrcOf r = 0x11 ∨ nrcOf r = 0x7f)) →
      ¬ (opts.retry_if_busy_returncode ∧ r.service = 0x7f ∧
          nrcOf r = 0x21) →
      (evaluate_response nrcOf isMod applyMod opts state request response
          e).2.retryLookup state = none) := by
  constructor
  · intro h
    subst h
    rfl
  · intro r hr h1 h2 h3
    subst hr
    simp only [evaluate_response, if_neg h1, if_neg h2, if_neg h3]
    split <;> simp [retryLookup_setRetry_self]

/-- Witness for C10 (amended): a timeout leaves a pending retry in place,
and a plain positive response clears it. -/
theorem c10_retry_frame_witness :
    (evaluate_response nrcDemo noMod applyId {} 0 reqDemo none
        (initEnum.setRetry 0 (some (.pkt reqDemo)))
      = (false, initEnum.setRetry 0 (some (.pkt reqDemo)))) ∧
    ((evaluate_response nrcDemo noMod applyId {} 0 reqDemo (some posDemo)
        (initEnum.setRetry 0 (some (.pkt reqDemo)))).2.retryLookup 0
      = none) :=
  ⟨(c10_retry_frame nrcDemo noMod applyId {} 0 reqDemo none
      (initEnum.setRetry 0 (some (.pkt reqDemo)))).1 rfl,
   (c10_retry_frame nrcDemo noMod applyId {} 0 reqDemo (some posDemo)
      (initEnum.setRetry 0 (some (.pkt reqDemo)))).2 posDemo rfl
      (by decide) (by decide) (by decide)⟩

/-! ### C6 -/

/-- Concrete `is_modifier_pkt` that classifies everything as modifying. -/
def allMod : Packet → Bool := fun _ => true

/-- Concrete `get_modified_ecu_state` that increments the state. -/
def applySucc : Packet → Packet → EcuState → EcuState := fun _ _ s => s + 1

/-- C6: `get_new_edge` returns an edge iff the result store is non-empty,
its most recent result carries a response classified as state-modifying,
and applying that response yields a state different from the result's
state; the returned edge is (old state, new state) and the triggering
request is recorded for it; in every other case it returns `none` and
changes nothing. -/
theorem c6_get_new_edge (isMod : Packet → Bool)
    (applyMod : Packet → Packet → EcuState → EcuState) (sg : SGEnumerator) :
    (∀ ed, (get_new_edge isMod applyMod sg).1 = some ed ↔
      ∃ r, sg.enum.results.getLast? = some r ∧
        ∃ resp, r.resp = some resp ∧ isMod resp = true ∧
          applyMod resp r.req r.state ≠ r.state ∧
          ed = (r.state, applyMod resp r.req r.state)) ∧
    (∀ ed, (get_new_edge isMod applyMod sg).1 = some ed →
      ∃ r, sg.enum.results.getLast? = some r ∧
        (get_new_edge isMod applyMod sg).2
          = { sg with edge_requests :=
                aupdate sg.edge_requests ed r.req }) ∧
    ((get_new_edge isMod applyMod sg).1 = none →
      (get_new_edge isMod applyMod sg).2 = sg) := by
  rcases hlast : sg.enum.results.getLast? with _ | r
  · have hg : get_new_edge isMod applyMod sg = (none, sg) := by
      simp [get_new_edge, hlast]
    refine ⟨?_, ?_, fun _ => by simp [hg]⟩ <;> intro ed
    · simp only [hg]
      constructor
      · intro h
        simp at h
      · rintro ⟨r', hr', -⟩
        simp at hr'
    · intro h
      rw [hg] at h
      simp at h
  · rcases hresp : r.resp with _ | resp
    · have hg : get_new_edge isMod applyMod sg = (none, sg) := by
        simp [get_new_edge, hlast, hresp]
      refine ⟨?_, ?_, fun _ => by simp [hg]⟩ <;> intro ed
      · simp only [hg]
        constructor
        · intro h
          simp at h
        · rintro ⟨r', hr', resp', hresp', -⟩
          injection hr' with hr'
          subst hr'
          rw [hresp] at hresp'
          simp at hresp'
      · intro h
        rw [hg] at h
        simp at h
    · by_cases hmod : isMod resp = true
      · by_cases heq : applyMod resp r.req r.state = r.state
        · have hg : get_new_edge isMod applyMod sg = (none, sg) := by
            simp [get_new_edge, hlast, hresp, hmod, heq]
          refine ⟨?_, ?_, fun _ => by simp [hg]⟩ <;> intro ed
          · simp only [hg]
            constructor
            · intro h
              simp at h
            · rintro ⟨r', hr', resp', hresp', -, hne, -⟩
              injection hr' with hr'
              subst hr'
              rw [hresp] at hresp'
              injection hresp' with hresp'
              subst hresp'
              exact absurd heq hne
          · intro h
            rw [hg] at h
            simp at h
        · have hg : get_new_edge isMod applyMod sg
              = (some (r.state, applyMod resp r.req r.state),
                 { sg with edge_requests := aupdate sg.edge_requests (r.state, applyMod resp r.req r.state) r.req }) := by
              simp [get_new_edge, hlast, hresp, hmod, heq]
          refine ⟨?_, ?_, ?_⟩
          · intro ed
            rw [hg]
            constructor
            · intro h
              injection h with h
              exact ⟨r, rfl, resp, hresp, hmod, heq, h.symm⟩
            · rintro ⟨r', hr', resp', hresp', -, -, hed⟩
              injection hr' with hr'
              subst hr'
              rw [hresp] at hresp'
              injection hresp' with hresp'
              subst hresp'
              simp [hed]
          · intro ed h
            rw [hg] at h
            injection h with h
            subst h
            exact ⟨r, rfl, by rw [hg]⟩
          · intro h
            rw [hg] at h
            simp at h
      · have hg : get_new_edge isMod applyMod sg = (none, sg) := by
          simp [get_new_edge, hlast, hresp, hmod]
        refine ⟨?_, ?_, fun _ => by simp [hg]⟩ <;> intro ed
        · simp only [hg]
          constructor
          · intro h
            simp at h
          · rintro ⟨r', hr', resp', hresp', hmod', -⟩
            injection hr' with hr'
            subst hr'
            rw [hresp] at hresp'
            injection hresp' with hresp'
            subst hresp'
            exact absurd hmod' hmod
        · intro h
          rw [hg] at h
          simp at h

/-- A concrete `StateGeneratingServiceEnumerator` whose last result holds
a response. -/
def sgDemo : SGEnumerator :=
  ⟨{ initEnum with results := [⟨7, reqDemo, some posDemo, 0, some 1⟩] }, []⟩

/-- Witness for C6: a concrete last result with a state-modifying response
yields the edge `(7, 8)`; with an identity state application nothing is
returned and nothing is recorded. -/
theorem c6_get_new_edge_witness :
    ((get_new_edge allMod applySucc sgDemo).1 = some (7, 8)) ∧
    ((get_new_edge allMod applyId sgDemo).2 = sgDemo) :=
  ⟨((c6_get_new_edge allMod applySucc sgDemo).1 (7, 8)).mpr
      ⟨⟨7, reqDemo, some posDemo, 0, some 1⟩, by decide, posDemo, rfl, rfl,
        by decide, rfl⟩,
   (c6_get_new_edge allMod applyId sgDemo).2.2 (by decide)⟩

/-! ### C5: lemmas about the blacklist recomputation -/

lemma mem_blacklistStep_of_ne (total cnt : Nat) (bl : List Nat) (c c' : Nat)
    (h : c' ≠ c) : c' ∈ blacklistStep total cnt bl c ↔ c' ∈ bl := by
  unfold blacklistStep
  by_cases hadd : c ∉ bl ∧ 30 < cnt ∧ total * 3 < cnt * 10
  · simp only [if_pos hadd]
    by_cases hrem : c ∈ bl ++ [c] ∧ cnt < 10
    · simp only [if_pos hrem]
      rw [List.mem_erase_of_ne h]
      simp [h]
    · simp only [if_neg hrem]
      simp [h]
  · simp only [if_neg hadd]
    by_cases hrem : c ∈ bl ∧ cnt < 10
    · simp only [if_pos hrem]
      rw [List.mem_erase_of_ne h]
    · simp only [if_neg hrem]

lemma nodup_blacklistStep (total cnt : Nat) (bl : List Nat) (c : Nat)
    (hnd : bl.Nodup) : (blacklistStep total cnt bl c).Nodup := by
  unfold blacklistStep
  by_cases hadd : c ∉ bl ∧ 30 < cnt ∧ total * 3 < cnt * 10
  · simp only [if_pos hadd]
    have h1 : (bl ++ [c]).Nodup := by
      simp [List.nodup_append, hnd, hadd.1]
    split
    · exact h1.erase c
    · exact h1
  · simp only [if_neg hadd]
    split
    · exact hnd.erase c
    · exact hnd

lemma mem_blacklistStep_self (total cnt : Nat) (bl : List Nat) (c : Nat)
    (hnd : bl.Nodup) :
    c ∈ blacklistStep total cnt bl c ↔
      ((c ∈ bl ∧ ¬ cnt < 10) ∨
       (c ∉ bl ∧ 30 < cnt ∧ total * 3 < cnt * 10)) := by
  unfold blacklistStep
  by_cases hin : c ∈ bl
  · have hadd : ¬ (c ∉ bl ∧ 30 < cnt ∧ total * 3 < cnt * 10) := by
      intro h
      exact h.1 hin
    simp only [if_neg hadd]
    by_cases hlt : cnt < 10
    · simp only [if_pos (And.intro hin hlt)]
      rw [hnd.mem_erase_iff]
      simp [hin, hlt]
    · simp only [if_neg (fun h : c ∈ bl ∧ cnt < 10 => hlt h.2)]
      simp [hin, hlt]
  · by_cases hcond : 30 < cnt ∧ total * 3 < cnt * 10
    · have hadd : c ∉ bl ∧ 30 < cnt ∧ total * 3 < cnt * 10 := ⟨hin, hcond⟩
      simp only [if_pos hadd]
      have hlt : ¬ cnt < 10 := by omega
      have hrem : ¬ (c ∈ bl ++ [c] ∧ cnt < 10) := fun h => hlt h.2

      simp only [if_neg hrem]
      simp [hin, hcond, hlt]
    · have hadd : ¬ (c ∉ bl ∧ 30 < cnt ∧ total * 3 < cnt * 10) :=
        fun h => hcond h.2
      simp only [if_neg hadd]
      have hrem : ¬ (c ∈ bl ∧ cnt < 10) := fun h => hin h.1
      simp only [if_neg hrem]
      simp [hin, hcond]

lemma mem_firstOccs_aux (l : List Nat) (acc : List Nat) (c : Nat) :
    c ∈ l.foldl (fun acc c => if c ∈ acc then acc else acc ++ [c]) acc ↔
      c ∈ acc ∨ c ∈ l := by
  induction l generalizing acc with
  | nil => simp
  | cons c0 tl ih =>
      by_cases h0 : c0 ∈ acc
      · simp only [List.foldl_cons, if_pos h0, ih]
        constructor
        · rintro (h | h)
          · exact Or.inl h
          · exact Or.inr (List.mem_cons_of_mem _ h)
        · rintro (h | h)
          · exact Or.inl h
          · rcases List.mem_cons.mp h with h | h
            · exact Or.inl (h ▸ h0)
            · exact Or.inr h
      · simp only [List.foldl_cons, if_neg h0, ih]
        simp only [List.mem_append, List.mem_singleton, List.mem_cons]
        tauto

lemma mem_firstOccs (l : List Nat) (c : Nat) :
    c ∈ firstOccs l ↔ c ∈ l := by
  unfold firstOccs
  rw [mem_firstOccs_aux]
  simp

lemma nodup_firstOccs_aux (l : List Nat) (acc : List Nat)
    (hacc : acc.Nodup) :
    (l.foldl (fun acc c => if c ∈ acc then acc else acc ++ [c]) acc).Nodup := by
  induction l generalizing acc with
  | nil => simpa
  | cons c0 tl ih =>
      by_cases h0 : c0 ∈ acc
      · simp only [List.foldl_cons, if_pos h0]
        exact ih acc hacc
      · simp only [List.foldl_cons, if_neg h0]
        exact ih _ (by simp [List.nodup_append, hacc, h0])

lemma nodup_firstOccs (l : List Nat) : (firstOccs l).Nodup :=
  nodup_firstOccs_aux l [] List.nodup_nil

lemma nodup_foldl_blacklistStep (total : Nat) (f : Nat → Nat)
    (cs : List Nat) (bl : List Nat) (hbl : bl.Nodup) :
    (cs.foldl (fun bl c => blacklistStep total (f c) bl c) bl).Nodup := by
  induction cs generalizing bl with
  | nil => simpa
  | cons c0 tl ih =>
      simp only [List.foldl_cons]
      exact ih _ (nodup_blacklistStep total (f c0) bl c0 hbl)

/-- Membership in the blacklist after the whole
`for nrc, nr_count in nrc_dict.items()` loop, per code. -/
lemma mem_foldl_blacklistStep (total : Nat) (f : Nat → Nat)
    (cs : List Nat) (bl : List Nat) (hbl : bl.Nodup) (hcs : cs.Nodup)
    (c : Nat) :
    (c ∈ cs.foldl (fun bl c => blacklistStep total (f c) bl c) bl ↔
      (if c ∈ cs then
        ((c ∈ bl ∧ ¬ f c < 10) ∨
         (c ∉ bl ∧ 30 < f c ∧ total * 3 < f c * 10))
       else c ∈ bl)) := by
  induction cs generalizing bl with
  | nil => simp
  | cons c0 tl ih =>
      have htl : tl.Nodup := hcs.of_cons
      have hbl' : (blacklistStep total (f c0) bl c0).Nodup :=
        nodup_blacklistStep total (f c0) bl c0 hbl
      by_cases hc : c = c0
      · subst hc
        have hnotin : c ∉ tl := (List.nodup_cons.mp hcs).1
        simp only [List.foldl_cons]
        rw [ih _ hbl' htl]
        simp only [if_neg hnotin, List.mem_cons, true_or, if_pos]
        exact mem_blacklistStep_self total (f c) bl c hbl
      · simp only [List.foldl_cons]
        rw [ih _ hbl' htl]
        have hother : c ∈ blacklistStep total (f c0) bl c0 ↔ c ∈ bl :=
          mem_blacklistStep_of_ne total (f c0) bl c0 c hc
        by_cases hmem : c ∈ tl
        · simp only [if_pos hmem, hother,
            if_pos (List.mem_cons_of_mem c0 hmem)]
        · have : c ∉ c0 :: tl := by
            simp [hc, hmem]
          simp only [if_neg hmem, if_neg this, hother]

/-- C5: each run of `_prepare_negative_response_blacklist`, evaluated over
the full current population of negative-response results: a code not yet
blacklisted ends up on the blacklist iff it occurs more than 30 times and
its occurrences exceed 30% of all negative responses; a blacklisted code
that occurs at least once is removed iff its count is below 10 (one that
does not occur stays); the raw results and the interned-packet table are
untouched. -/
theorem c5_blacklist (nrcOf : Packet → Nat) (e : Enumerator)
    (hbl : e.negative_response_blacklist.Nodup) :
    (∀ c, c ∉ e.negative_response_blacklist →
      (c ∈ (prepare_negative_response_blacklist nrcOf
              e).negative_response_blacklist ↔
        (30 < (negCodes nrcOf e).count c ∧
         (negCodes nrcOf e).length * 3 < (negCodes nrcOf e).count c * 10))) ∧
    (∀ c, c ∈ e.negative_response_blacklist →
      0 < (negCodes nrcOf e).count c →
      (c ∉ (prepare_negative_response_blacklist nrcOf
              e).negative_response_blacklist ↔
        (negCodes nrcOf e).count c < 10)) ∧
    (∀ c, c ∈ e.negative_response_blacklist →
      (negCodes nrcOf e).count c = 0 →
      c ∈ (prepare_negative_response_blacklist nrcOf
            e).negative_response_blacklist) ∧
    (prepare_negative_response_blacklist nrcOf e).results = e.results ∧
    (prepare_negative_response_blacklist nrcOf e).result_packets
      = e.result_packets := by
  have hmain : ∀ c,
      (c ∈ (prepare_negative_response_blacklist nrcOf
              e).negative_response_blacklist ↔
        (if c ∈ firstOccs (negCodes nrcOf e) then
          ((c ∈ e.negative_response_blacklist ∧
             ¬ (negCodes nrcOf e).count c < 10) ∨
           (c ∉ e.negative_response_blacklist ∧
             30 < (negCodes nrcOf e).count c ∧
             (negCodes nrcOf e).length * 3 < (negCodes nrcOf e).count c * 10))
         else c ∈ e.negative_response_blacklist)) := by
    intro c
    exact mem_foldl_blacklistStep (negCodes nrcOf e).length
      (fun c => (negCodes nrcOf e).count c) (firstOccs (negCodes nrcOf e))
      e.negative_response_blacklist hbl
      (nodup_firstOccs (negCodes nrcOf e)) c
  refine ⟨?_, ?_, ?_, rfl, rfl⟩
  · intro c hc
    rw [hmain c]
    by_cases hmem : c ∈ negCodes nrcOf e
    · rw [if_pos ((mem_firstOccs _ c).mpr hmem)]
      constructor
      · rintro (⟨h, -⟩ | ⟨-, h⟩)
        · exact absurd h hc
        · exact h
      · intro h
        exact Or.inr ⟨hc, h⟩
    · rw [if_neg (fun h => hmem ((mem_firstOccs _ c).mp h))]
      have hz : (negCodes nrcOf e).count c = 0 :=
        List.count_eq_zero.mpr hmem
      constructor
      · intro h
        exact absurd h hc
      · rintro ⟨h, -⟩
        omega
  · intro c hc hpos
    rw [hmain c]
    have hmem : c ∈ negCodes nrcOf e := by
      by_contra hmem
      rw [List.count_eq_zero.mpr hmem] at hpos
      omega
    rw [if_pos ((mem_firstOccs _ c).mpr hmem)]
    constructor
    · intro h
      by_contra hlt
      exact h (Or.inl ⟨hc, hlt⟩)
    · intro hlt
      rintro (⟨-, h⟩ | ⟨h, -⟩)
      · exact h hlt
      · exact h hc
  · intro c hc hz
    rw [hmain c]
    have hmem : c ∉ negCodes nrcOf e := List.count_eq_zero.mp hz
    rw [if_neg (fun h => hmem ((mem_firstOccs _ c).mp h))]
    exact hc

/-- A concrete negative response with code 0x10. -/
def neg10Demo : Packet := ⟨5, [0x7f, 0x22, 0x10], 0x7f, none, 4⟩

/-- An enumerator holding 40 negative responses, all with code 0x33. -/
def e40Demo : Enumerator :=
  { initEnum with
      results := List.replicate 40 ⟨0, reqDemo, some negOtherDemo, 1, some 4⟩ }

/-- An enumerator holding 5 negative responses, all with code 0x10. -/
def e5Demo : Enumerator :=
  { initEnum with
      results := List.replicate 5 ⟨0, reqDemo, some neg10Demo, 1, some 4⟩ }

/-- Witness for C5: out of 40 negative responses all carrying code 0x33
(count 40 > 30, share 100% > 30%), 0x33 is added to the blacklist; the
seeded code 0x10 occurring only 5 times (< 10) is removed. -/
theorem c5_blacklist_witness :
    (0x33 ∈ (prepare_negative_response_blacklist nrcDemo
        e40Demo).negative_response_blacklist) ∧
    (0x10 ∉ (prepare_negative_response_blacklist nrcDemo
        e5Demo).negative_response_blacklist) :=
  ⟨((c5_blacklist nrcDemo e40Demo (by decide)).1 0x33 (by decide)).mpr
      (by decide),
   ((c5_blacklist nrcDemo e5Demo (by decide)).2.1 0x10 (by decide)
      (by decide)).mpr (by decide)⟩

/-! ### C7: lemmas about packet interning -/

/-- Well-formedness of the interned-packet table: every entry is keyed by
the byte content of the packet it holds. -/
def TableWF (e : Enumerator) : Prop :=
  ∀ cp ∈ e.result_packets, (cp : Bytes × Packet).2.content = cp.1

/-- Every stored result references the canonical table instance for its
request (and its response, when present). -/
def ResultsWF (e : Enumerator) : Prop :=
  ∀ r ∈ e.results,
    alookup e.result_packets r.req.content = some r.req ∧
    ∀ p, r.resp = some p → alookup e.result_packets p.content = some p

lemma alookup_mem {α β : Type} [DecidableEq α] (l : List (α × β)) (k : α)
    (v : β) (h : alookup l k = some v) : (k, v) ∈ l := by
  induction l with
  | nil => simp [alookup] at h
  | cons hd tl ih =>
      obtain ⟨k0, v0⟩ := hd
      by_cases h0 : k0 = k
      · subst h0
        simp only [alookup, if_pos rfl] at h
        injection h with h
        subst h
        exact List.mem_cons_self _ _
      · simp only [alookup, if_neg h0] at h
        exact List.mem_cons_of_mem _ (ih h)

lemma intern_table_mono (e : Enumerator) (p : Packet) :
    ∃ t, (intern e p).result_packets = e.result_packets ++ t := by
  unfold intern
  split
  · exact ⟨[], by simp⟩
  · exact ⟨[(p.content, p)], rfl⟩

lemma intern_results (e : Enumerator) (p : Packet) :
    (intern e p).results = e.results := by
  unfold intern
  split <;> rfl

lemma alookup_intern_of_isSome (e : Enumerator) (p : Packet) (k : Bytes)
    (h : (alookup e.result_packets k).isSome) :
    alookup (intern e p).result_packets k = alookup e.result_packets k := by
  obtain ⟨t, ht⟩ := intern_table_mono e p
  rw [ht]
  exact alookup_append_of_isSome _ _ _ h

lemma TableWF_intern (e : Enumerator) (p : Packet) (h : TableWF e) :
    TableWF (intern e p) := by
  unfold intern
  split
  · exact h
  · intro cp hcp
    rcases List.mem_append.mp hcp with hcp | hcp
    · exact h cp hcp
    · simp only [List.mem_singleton] at hcp
      subst hcp
      rfl

lemma alookup_intern_self (e : Enumerator) (p : Packet) (hwf : TableWF e) :
    ∃ q, alookup (intern e p).result_packets p.content = some q ∧
      q.content = p.content := by
  cases h : alookup e.result_packets p.content with
  | some q =>
      refine ⟨q, ?_, hwf (p.content, q) (alookup_mem _ _ _ h)⟩
      rw [alookup_intern_of_isSome e p p.content (by simp [h])]
      exact h
  | none =>
      refine ⟨p, ?_, rfl⟩
      unfold intern
      rw [if_neg (by simp [h])]
      rw [alookup_append_of_none _ _ _ h]
      simp [alookup]

lemma ResultsWF_intern (e : Enumerator) (p : Packet) (h : ResultsWF e) :
    ResultsWF (intern e p) := by
  intro r hr
  rw [intern_results] at hr
  obtain ⟨h1, h2⟩ := h r hr
  constructor
  · rw [alookup_intern_of_isSome e p _ (by simp [h1])]
    exact h1
  · intro q hq
    rw [alookup_intern_of_isSome e p _ (by simp [h2 q hq])]
    exact h2 q hq

lemma store_result_table_mono (state : EcuState) (req : Packet)
    (res : Option Packet) (e : Enumerator) :
    ∃ t, (store_result state req res e).result_packets
      = e.result_packets ++ t := by
  unfold store_result
  obtain ⟨t1, ht1⟩ := intern_table_mono e req
  cases res with
  | none => exact ⟨t1, ht1⟩
  | some r =>
      obtain ⟨t2, ht2⟩ := intern_table_mono (intern e req) r
      exact ⟨t1 ++ t2, by simp [ht2, ht1]⟩

lemma TableWF_store (state : EcuState) (req : Packet) (res : Option Packet)
    (e : Enumerator) (h : TableWF e) : TableWF (store_result state req res e) := by
  unfold store_result
  cases res with
  | none => exact TableWF_intern e req h
  | some r => exact TableWF_intern _ r (TableWF_intern e req h)

lemma ResultsWF_store (state : EcuState) (req : Packet) (res : Option Packet)
    (e : Enumerator) (hT : TableWF e) (hR : ResultsWF e) :
    ResultsWF (store_result state req res e) := by
  have hT1 : TableWF (intern e req) := TableWF_intern e req hT
  have hR1 : ResultsWF (intern e req) := ResultsWF_intern e req hR
  obtain ⟨q, hq, hqc⟩ := alookup_intern_self e req hT
  cases res with
  | none =>
      intro r hr
      unfold store_result at hr
      simp only at hr
      rcases List.mem_append.mp hr with hr | hr
      · exact hR1 r hr
      · simp only [List.mem_singleton] at hr
        subst hr
        constructor
        · simp only [hq, Option.getD_some, hqc]
          exact hq
        · intro p hp
          simp at hp
  | some rr =>
      have hT2 : TableWF (intern (intern e req) rr) := TableWF_intern _ rr hT1
      have hR2 : ResultsWF (intern (intern e req) rr) :=
        ResultsWF_intern _ rr hR1
      have hq2 : alookup (intern (intern e req) rr).result_packets req.content
          = some q := by
        rw [alookup_intern_of_isSome _ rr _ (by simp [hq])]
        exact hq
      obtain ⟨q2, hq2r, hq2c⟩ := alookup_intern_self (intern e req) rr hT1
      intro r hr
      unfold store_result at hr
      simp only at hr
      rcases List.mem_append.mp hr with hr | hr
      · exact hR2 r hr
      · simp only [List.mem_singleton] at hr
        subst hr
        constructor
        · simp only [hq2, Option.getD_some, hqc]
          exact hq2
        · intro p hp
          simp only [Option.some.injEq] at hp
          subst hp
          simp only [hq2r, Option.getD_some, hq2c]
          exact hq2r

lemma storeOps_table_mono (ops : List (EcuState × Packet × Option Packet))
    (e : Enumerator) :
    ∃ t, (storeOps ops e).result_packets = e.result_packets ++ t := by
  induction ops generalizing e with
  | nil => exact ⟨[], by simp [storeOps]⟩
  | cons op rest ih =>
      obtain ⟨s, q, r⟩ := op
      obtain ⟨t1, ht1⟩ := store_result_table_mono s q r e
      obtain ⟨t2, ht2⟩ := ih (store_result s q r e)
      exact ⟨t1 ++ t2, by simp [storeOps, ht2, ht1]⟩

lemma WF_storeOps (ops : List (EcuState × Packet × Option Packet))
    (e : Enumerator) (hT : TableWF e) (hR : ResultsWF e) :
    TableWF (storeOps ops e) ∧ ResultsWF (storeOps ops e) := by
  induction ops generalizing e with
  | nil => exact ⟨hT, hR⟩
  | cons op rest ih =>
      obtain ⟨s, q, r⟩ := op
      exact ih (store_result s q r e) (TableWF_store s q r e hT)
        (ResultsWF_store s q r e hT hR)

/-- C7: starting from a well-formed enumerator, after any sequence of
`_store_result` calls any two stored results whose request byte strings
are equal reference the identical canonical request instance (the table
entry for those bytes), and likewise for responses; the interned-packet
table only gains entries and never loses one. -/
theorem c7_interning (ops : List (EcuState × Packet × Option Packet))
    (e : Enumerator) (hT : TableWF e) (hR : ResultsWF e) :
    (∀ r1 ∈ (storeOps ops e).results, ∀ r2 ∈ (storeOps ops e).results,
      (r1.req.content = r2.req.content → r1.req = r2.req) ∧
      (∀ p1 p2, r1.resp = some p1 → r2.resp = some p2 →
        p1.content = p2.content → p1 = p2)) ∧
    (∀ r ∈ (storeOps ops e).results,
      alookup (storeOps ops e).result_packets r.req.content
        = some r.req) ∧
    (∃ t, (storeOps ops e).result_packets = e.result_packets ++ t) := by
  obtain ⟨hT', hR'⟩ := WF_storeOps ops e hT hR
  refine ⟨?_, ?_, storeOps_table_mono ops e⟩
  · intro r1 h1 r2 h2
    obtain ⟨hq1, hp1⟩ := hR' r1 h1
    obtain ⟨hq2, hp2⟩ := hR' r2 h2
    constructor
    · intro hc
      rw [hc] at hq1
      rw [hq1] at hq2
      injection hq2
    · intro p1 p2 hp1' hp2' hc
      have l1 := hp1 p1 hp1'
      have l2 := hp2 p2 hp2'
      rw [hc] at l1
      rw [l1] at l2
      injection l2
  · intro r hr
    exact (hR' r hr).1

/-- Witness for C7: storing two requests with equal bytes but distinct
identities (`reqDemo`, `reqDemo2`) yields two results sharing the first
instance, and the table only grew. -/
theorem c7_interning_witness :
    ((⟨0, reqDemo, none, 1, none⟩ : ScanResult).req
      = (⟨0, reqDemo, none, 2, none⟩ : ScanResult).req) ∧
    (∃ t, (storeOps [(0, reqDemo, none), (0, reqDemo2, none)]
        initEnum).result_packets = initEnum.result_packets ++ t) :=
  ⟨((c7_interning [(0, reqDemo, none), (0, reqDemo2, none)] initEnum
      (by intro cp h; simp [initEnum] at h)
      (by intro r h; simp [initEnum] at h)).1
      ⟨0, reqDemo, none, 1, none⟩ (by decide)
      ⟨0, reqDemo, none, 2, none⟩ (by decide)).1 rfl,
   (c7_interning [(0, reqDemo, none), (0, reqDemo2, none)] initEnum
      (by intro cp h; simp [initEnum] at h)
      (by intro r h; simp [initEnum] at h)).2.2⟩

/-! ### C9: the statistics computation -/

instance : Std.Antisymm ((· : ℚ) ≤ ·) where
  antisymm h1 h2 := le_antisymm h1 h2

instance : Std.Antisymm ((· : ℚ) ≥ ·) where
  antisymm h1 h2 := le_antisymm h2 h1

/-- Specification of one latency summary triple over the population `ts`:
the sentinel (`"-"`, modelled `none`) is reported iff the population is
empty; otherwise the minimum, maximum and arithmetic mean of the
population are reported (to 5 decimal places, the display precision of
the source's `round(_, 5)`). -/
def LatencySummarySpec (ts : List ℚ) (mi ma av : Option ℚ) : Prop :=
  (mi = none ↔ ts = []) ∧ (ma = none ↔ ts = []) ∧ (av = none ↔ ts = []) ∧
  (ts ≠ [] →
    (∃ m ∈ ts, (∀ x ∈ ts, m ≤ x) ∧ mi = some (roundq5 m)) ∧
    (∃ m ∈ ts, (∀ x ∈ ts, x ≤ m) ∧ ma = some (roundq5 m)) ∧
    (∃ a : ℚ, a * ts.length = ts.sum ∧ av = some (roundq5 a)))

lemma latencySummary_ok (ts : List ℚ) :
    LatencySummarySpec ts (statMin ts) (statMax ts) (statAvg ts) := by
  refine ⟨?_, ?_, ?_, ?_⟩
  · simp [statMin, List.min?_eq_none_iff]
  · simp [statMax, List.max?_eq_none_iff]
  · simp [statAvg, List.length_eq_zero]
  · intro hne
    refine ⟨?_, ?_, ?_⟩
    · have hs : ∃ m, ts.min? = some m := by
        cases h : ts.min? with
        | none => exact absurd (List.min?_eq_none_iff.mp h) hne
        | some m => exact ⟨m, rfl⟩
      obtain ⟨m, hm⟩ := hs
      have := (List.min?_eq_some_iff (fun a => le_refl a)
        (fun a b => min_choice a b) (fun _ _ _ => le_min_iff)).mp hm
      exact ⟨m, this.1, this.2, by simp [statMin, hm]⟩
    · have hs : ∃ m, ts.max? = some m := by
        cases h : ts.max? with
        | none => exact absurd (List.max?_eq_none_iff.mp h) hne
        | some m => exact ⟨m, rfl⟩
      obtain ⟨m, hm⟩ := hs
      have := (List.max?_eq_some_iff (fun a => le_refl a)
        (fun a b => max_choice a b) (fun _ _ _ => max_le_iff)).mp hm
      exact ⟨m, this.1, this.2, by simp [statMax, hm]⟩
    · have hlen : (ts.length : ℚ) ≠ 0 := by
        simp [List.length_eq_zero, hne]
      refine ⟨ts.sum / ts.length, div_mul_cancel₀ _ hlen, ?_⟩
      simp [statAvg, List.length_eq_zero, hne]

/-- C9: `_compute_statistics` produces one entry for the `"all"` data set
and one per tracked state, each carrying the exact counts of answered,
unanswered and negative results of its data set, and, for each of the
three latency populations (all answered, negative-only, positive-only),
the minimum, maximum and arithmetic mean of `resp_ts - req_ts` over
results where both timestamps exist — with the `"-"` sentinel (`none`)
reported instead of a number exactly when the population is empty, the
mean's division by zero included. -/
theorem c9_statistics (e : Enumerator) :
    ((compute_statistics e).map Prod.fst
      = none :: e.state_completed.map (fun sc => some sc.1)) ∧
    (∀ entry ∈ compute_statistics e,
      entry.2 = stats_of (match entry.1 with
        | none => e.results
        | some s => e.results.filter (fun r => r.state = s))) ∧
    (∀ data : List ScanResult,
      (stats_of data).num_answered = data.countP (fun r => r.resp.isSome) ∧
      (stats_of data).num_unanswered = data.countP (fun r => r.resp.isNone) ∧
      (stats_of data).num_negative_resps = data.countP (fun r => isNegResult r) ∧
      LatencySummarySpec (answertimes data)
        (stats_of data).answertime_min (stats_of data).answertime_max
        (stats_of data).answertime_avg ∧
      LatencySummarySpec (answertimes_nr data)
        (stats_of data).answertime_min_nr (stats_of data).answertime_max_nr
        (stats_of data).answertime_avg_nr ∧
      LatencySummarySpec (answertimes_pr data)
        (stats_of data).answertime_min_pr (stats_of data).answertime_max_pr
        (stats_of data).answertime_avg_pr) := by
  refine ⟨by simp [compute_statistics], ?_, ?_⟩
  · intro entry hentry
    simp only [compute_statistics, List.mem_cons] at hentry
    rcases hentry with h | h
    · subst h
      rfl
    · obtain ⟨sc, -, h⟩ := List.mem_map.mp h
      subst h
      rfl
  · intro data
    refine ⟨?_, ?_, ?_, latencySummary_ok _, latencySummary_ok _,
      latencySummary_ok _⟩
    · simp [stats_of, List.countP_eq_length_filter]
    · simp [stats_of, List.countP_eq_length_filter]
    · simp [stats_of, List.countP_eq_length_filter]

/-- An enumerator matching the spec's statistics example: for state 1,
three answered results with latencies 1, 2, 3 and one unanswered. -/
def eStatDemo : Enumerator :=
  { initEnum with
      results := [⟨1, reqDemo, some posDemo, 0, some 1⟩,
                  ⟨1, reqDemo, some posDemo, 0, some 2⟩,
                  ⟨1, reqDemo, some posDemo, 0, some 3⟩,
                  ⟨1, reqDemo, none, 0, none⟩]
      state_completed := [(1, false)] }

/-- Witness for C9 on the spec's example: the data sets are `"all"` and
state 1, and the counts of answered/unanswered results are 3 and 1. -/
theorem c9_statistics_witness :
    ((compute_statistics eStatDemo).map Prod.fst = [none, some 1]) ∧
    (stats_of eStatDemo.results).num_answered
        = eStatDemo.results.countP (fun r => r.resp.isSome) ∧
    (stats_of eStatDemo.results).num_unanswered
        = eStatDemo.results.countP (fun r => r.resp.isNone) :=
  ⟨by rw [(c9_statistics eStatDemo).1]; decide,
   ((c9_statistics eStatDemo).2.2 eStatDemo.results).1,
   ((c9_statistics eStatDemo).2.2 eStatDemo.results).2.1⟩

/-! ### Frame lemmas for the execute loop -/

/-- Enumerator carried by a step result. -/
def StepRes.enum : StepRes → Enumerator
  | .halt _ e => e
  | .cont e => e

lemma intern_registry (e : Enumerator) (p : Packet) :
    (intern e p).request_iterators = e.request_iterators := by
  unfold intern
  split <;> rfl

lemma store_result_registry (state : EcuState) (req : Packet)
    (res : Option Packet) (e : Enumerator) :
    (store_result state req res e).request_iterators
      = e.request_iterators := by
  unfold store_result
  cases res <;> simp [intern_registry]

lemma store_result_results (state : EcuState) (req : Packet)
    (res : Option Packet) (e : Enumerator) :
    ∃ r, (store_result state req res e).results = e.results ++ [r] := by
  simp only [store_result]
  cases res with
  | none =>
      rw [intern_results]
      exact ⟨_, rfl⟩
  | some rr =>
      rw [intern_results, intern_results]
      exact ⟨_, rfl⟩

lemma evaluate_frame (nrcOf : Packet → Nat) (isMod : Packet → Bool)
    (applyMod : Packet → Packet → EcuState → EcuState) (opts : EvalOptions)
    (state : EcuState) (request : Packet) (response : Option Packet)
    (e : Enumerator) :
    (evaluate_response nrcOf isMod applyMod opts state request response
        e).2.request_iterators = e.request_iterators ∧
    (evaluate_response nrcOf isMod applyMod opts state request response
        e).2.results = e.results ∧
    (evaluate_response nrcOf isMod applyMod opts state request response
        e).2.result_packets = e.result_packets := by
  rcases response with _ | resp
  · exact ⟨rfl, rfl, rfl⟩
  · refine ⟨?_, ?_, ?_⟩ <;>
      (simp only [evaluate_response]
       repeat' split
       all_goals rfl)

lemma exchange_registry (cfg : ExecCfg) (state : EcuState) (req : Packet)
    (out : SockOutcome) (e : Enumerator) :
    (exchange cfg state req out e).enum.request_iterators
      = e.request_iterators := by
  cases out with
  | exn =>
      simp only [exchange]
      split <;> rfl
  | recv res closed now =>
      have h1 := store_result_registry state req res e
      have h2 := (evaluate_frame cfg.nrcOf cfg.isMod cfg.applyMod cfg.opts
        state req res (store_result state req res e)).1
      cases closed with
      | true => simp [exchange, StepRes.enum]
      | false =>
          simp only [exchange, Bool.false_eq_true, if_false]
          split
          · simp only [StepRes.enum]
            rw [h2, h1]
          · split
            · simp only [StepRes.enum]
              rw [h2, h1]
            · simp only [StepRes.enum]
              rw [h2, h1]

lemma exchange_halt_kind (cfg : ExecCfg) (state : EcuState) (req : Packet)
    (out : SockOutcome) (e : Enumerator) (k : StopKind) (e' : Enumerator)
    (h : exchange cfg state req out e = .halt k e') :
    (k = .raised ↔ out = .exn) ∧ k ≠ .finished ∧ k ≠ .stuck ∧
    (out = .exn → e'.retryLookup state
      = some ((e.retryLookup state).getD (.pkt req))) := by
  cases out with
  | exn =>
      simp only [exchange] at h
      cases hr : e.retryLookup state with
      | none =>
          rw [hr] at h
          injection h with h1 h2
          subst h1
          subst h2
          exact ⟨by simp, by simp, by simp,
            fun _ => by simp [retryLookup_setRetry_self]⟩
      | some s =>
          rw [hr] at h
          injection h with h1 h2
          subst h1
          subst h2
          exact ⟨by simp, by simp, by simp, fun _ => by simp [hr]⟩
  | recv res closed now =>
      simp only [exchange] at h
      by_cases hc : closed = true
      · rw [if_pos hc] at h
        injection h with h1 h2
        subst h1
        exact ⟨by simp, by simp, by simp, by simp⟩
      · rw [if_neg hc] at h
        split at h
        · injection h with h1 h2
          subst h1
          exact ⟨by simp, by simp, by simp, by simp⟩
        · split at h
          · injection h with h1 h2
            subst h1
            exact ⟨by simp, by simp, by simp, by simp⟩
          · exact absurd h (by simp)

lemma exchange_cont_shape (cfg : ExecCfg) (state : EcuState) (req : Packet)
    (out : SockOutcome) (e : Enumerator) (e' : Enumerator)
    (h : exchange cfg state req out e = .cont e') :
    ∃ res now, out = .recv res false now := by
  cases out with
  | exn =>
      simp only [exchange] at h
      cases hr : e.retryLookup state <;> rw [hr] at h <;> exact absurd h (by simp)
  | recv res closed now =>
      refine ⟨res, now, ?_⟩
      simp only [exchange] at h
      by_cases hc : closed = true
      · rw [if_pos hc] at h
        exact absurd h (by simp)
      · simp [hc]

/-! ### C4: the composed request stream -/

lemma loopFresh_stream (cfg : ExecCfg) (state : EcuState) :
    ∀ (l : List Packet) (script : List SockOutcome) (e : Enumerator)
      (tr : List ExchRec),
      alookup e.request_iterators state = some l →
      ∃ Δ, (loopFresh cfg state l script e tr).2.2 = tr ++ Δ ∧
        Δ.map (·.req) = l.take Δ.length ∧ Δ.length ≤ l.length ∧
        alookup (loopFresh cfg state l script e tr).2.1.request_iterators
          state = some (l.drop Δ.length) := by
  intro l
  induction l with
  | nil =>
      intro script e tr h
      exact ⟨[], by simp [loopFresh], by simp, by simp, by
        simpa [loopFresh, Enumerator.markCompleted] using h⟩
  | cons req rest ih =>
      intro script e tr h
      cases script with
      | nil =>
          exact ⟨[], by simp [loopFresh], by simp, by simp, by
            simpa [loopFresh] using h⟩
      | cons out script' =>
          have hreg0 : alookup (e.setRegistry state
              rest).request_iterators state = some rest := by
            simp [Enumerator.setRegistry, alookup_aupdate_self]
          have hr := exchange_registry cfg state req out
            (e.setRegistry state rest)
          cases hex : exchange cfg state req out (e.setRegistry state rest) with
          | halt k e' =>
              rw [hex] at hr
              simp only [StepRes.enum] at hr
              refine ⟨[⟨req, (e.setRegistry state rest).retryLookup state,
                out⟩], ?_, by simp, by simp, ?_⟩
              · simp [loopFresh, hex]
              · simp only [loopFresh, hex]
                rw [hr]
                simpa using hreg0
          | cont e' =>
              rw [hex] at hr
              simp only [StepRes.enum] at hr
              have hreg' : alookup e'.request_iterators state = some rest := by
                rw [hr]
                exact hreg0
              obtain ⟨Δ', h1, h2, h3, h4⟩ := ih script' e'
                (tr ++ [⟨req, (e.setRegistry state rest).retryLookup state,
                  out⟩]) hreg'
              refine ⟨⟨req, (e.setRegistry state rest).retryLookup state,
                out⟩ :: Δ', ?_, ?_, ?_, ?_⟩
              · simp only [loopFresh, hex]
                rw [h1]
                simp
              · simp [h2]
              · simpa using Nat.succ_le_succ h3
              · simp only [loopFresh, hex]
                simpa using h4

lemma loopRetry_stream (cfg : ExecCfg) (state : EcuState) :
    ∀ (rL fL : List Packet) (script : List SockOutcome) (e : Enumerator)
      (tr : List ExchRec),
      alookup e.request_iterators state = some fL →
      ∃ Δ, (loopRetry cfg state rL fL script e tr).2.2 = tr ++ Δ ∧
        Δ.map (·.req) = (rL ++ fL).take Δ.length ∧
        Δ.length ≤ rL.length + fL.length ∧
        alookup (loopRetry cfg state rL fL script e
            tr).2.1.request_iterators state
          = some (fL.drop (Δ.length - rL.length)) := by
  intro rL
  induction rL with
  | nil =>
      intro fL script e tr h
      obtain ⟨Δ, h1, h2, h3, h4⟩ := loopFresh_stream cfg state fL script e tr h
      exact ⟨Δ, by simpa [loopRetry] using h1, by simpa using h2,
        by simpa using h3, by simpa [loopRetry] using h4⟩
  | cons req rest ih =>
      intro fL script e tr h
      cases script with
      | nil =>
          exact ⟨[], by simp [loopRetry], by simp, by simp, by
            simpa [loopRetry] using h⟩
      | cons out script' =>
          have hr := exchange_registry cfg state req out e
          cases hex : exchange cfg state req out e with
          | halt k e' =>
              rw [hex] at hr
              simp only [StepRes.enum] at hr
              refine ⟨[⟨req, e.retryLookup state, out⟩], ?_, by simp,
                by simp; omega, ?_⟩
              · simp [loopRetry, hex]
              · simp only [loopRetry, hex]
                rw [hr, h]
                simp
          | cont e' =>
              rw [hex] at hr
              simp only [StepRes.enum] at hr
              have hreg' : alookup e'.request_iterators state = some fL := by
                rw [hr]
                exact h
              obtain ⟨Δ', h1, h2, h3, h4⟩ := ih fL script' e'
                (tr ++ [⟨req, e.retryLookup state, out⟩]) hreg'
              refine ⟨⟨req, e.retryLookup state, out⟩ :: Δ', ?_, ?_, ?_, ?_⟩
              · simp only [loopRetry, hex]
                rw [h1]
                simp
              · simp [h2]
              · simp only [List.length_cons]
                omega
              · simp only [loopRetry, hex, List.length_cons,
                  Nat.add_sub_add_right]
                exact h4

/-- C4: the requests sent by one `execute` call form a prefix of the
rendered retry items followed by the memoized initial-request cursor
(the existing registry entry if present, the freshly supplied sequence
only on first use), so retry items precede every newly drawn request;
afterwards, the registry entry for `state` holds exactly the part of the
memoized cursor not yet drawn, so a later call resumes where this one
stopped instead of re-deriving the sequence. -/
theorem c4_request_stream (cfg : ExecCfg) (state : EcuState)
    (initial : List Packet) (script : List SockOutcome) (e : Enumerator) :
    (execute cfg state initial script e).2.2.map (·.req)
      = (get_retry_iterator e state ++
          (alookup e.request_iterators state).getD initial).take
          (execute cfg state initial script e).2.2.length ∧
    alookup (execute cfg state initial script e).2.1.request_iterators
        state
      = some (((alookup e.request_iterators state).getD initial).drop
          ((execute cfg state initial script e).2.2.length
            - (get_retry_iterator e state).length)) := by
  cases hreg : alookup e.request_iterators state with
  | some l =>
      have he1 : (if (alookup e.request_iterators state).isSome then e
          else e.setRegistry state initial) = e := by
        simp [hreg]
      obtain ⟨Δ, h1, h2, h3, h4⟩ := loopRetry_stream cfg state
        (get_retry_iterator e state) l script e [] hreg
      have hx : execute cfg state initial script e
          = loopRetry cfg state (get_retry_iterator e state) l script e [] := by
        simp [execute, hreg]
      rw [hx]
      rw [h1] at *
      simp only [List.nil_append] at *
      exact ⟨h2, h4⟩
  | none =>
      have he1 : (if (alookup e.request_iterators state).isSome then e
          else e.setRegistry state initial) = e.setRegistry state initial := by
        simp [hreg]
      have hreg1 : alookup (e.setRegistry state
          initial).request_iterators state = some initial := by
        simp [Enumerator.setRegistry, alookup_aupdate_self]
      have hretry : get_retry_iterator (e.setRegistry state initial) state
          = get_retry_iterator e state := rfl
      obtain ⟨Δ, h1, h2, h3, h4⟩ := loopRetry_stream cfg state
        (get_retry_iterator e state) initial script
        (e.setRegistry state initial) [] hreg1
      have hx : execute cfg state initial script e
          = loopRetry cfg state (get_retry_iterator e state) initial script
              (e.setRegistry state initial) [] := by
        simp [execute, hreg, hreg1, hretry]
      rw [hx]
      rw [h1] at *
      simp only [List.nil_append] at *
      simp only [hreg, Option.getD_none]
      exact ⟨h2, h4⟩

/-! ### C8: completion on stream exhaustion -/

lemma loopFresh_finished (cfg : ExecCfg) (state : EcuState) :
    ∀ (l : List Packet) (script : List SockOutcome) (e : Enumerator)
      (tr : List ExchRec),
      (loopFresh cfg state l script e tr).1 = .finished →
      alookup (loopFresh cfg state l script e tr).2.1.state_completed state
        = some true := by
  intro l
  induction l with
  | nil =>
      intro script e tr _
      simp [loopFresh, Enumerator.markCompleted, alookup_aupdate_self]
  | cons req rest ih =>
      intro script e tr h
      cases script with
      | nil => simp [loopFresh] at h
      | cons out script' =>
          cases hex : exchange cfg state req out (e.setRegistry state rest) with
          | halt k e' =>
              rw [show (loopFresh cfg state (req :: rest) (out :: script') e
                  tr) = (k, e', tr ++ [⟨req, (e.setRegistry state
                    rest).retryLookup state, out⟩]) by
                simp [loopFresh, hex]] at h
              exact absurd h (exchange_halt_kind cfg state req out
                (e.setRegistry state rest) k e' hex).2.1
          | cont e' =>
              rw [show (loopFresh cfg state (req :: rest) (out :: script') e
                  tr) = loopFresh cfg state rest script' e'
                    (tr ++ [⟨req, (e.setRegistry state rest).retryLookup
                      state, out⟩]) by
                simp [loopFresh, hex]] at h ⊢
              exact ih script' e' _ h

lemma loopRetry_finished (cfg : ExecCfg) (state : EcuState) :
    ∀ (rL fL : List Packet) (script : List SockOutcome) (e : Enumerator)
      (tr : List ExchRec),
      (loopRetry cfg state rL fL script e tr).1 = .finished →
      alookup (loopRetry cfg state rL fL script e tr).2.1.state_completed
        state = some true := by
  intro rL
  induction rL with
  | nil =>
      intro fL script e tr h
      exact loopFresh_finished cfg state fL script e tr h
  | cons req rest ih =>
      intro fL script e tr h
      cases script with
      | nil => simp [loopRetry] at h
      | cons out script' =>
          cases hex : exchange cfg state req out e with
          | halt k e' =>
              rw [show (loopRetry cfg state (req :: rest) fL (out :: script')
                  e tr) = (k, e', tr ++ [⟨req, e.retryLookup state, out⟩]) by
                simp [loopRetry, hex]] at h
              exact absurd h (exchange_halt_kind cfg state req out e k e'
                hex).2.1
          | cont e' =>
              rw [show (loopRetry cfg state (req :: rest) fL (out :: script')
                  e tr) = loopRetry cfg state rest fL script' e'
                    (tr ++ [⟨req, e.retryLookup state, out⟩]) by
                simp [loopRetry, hex]] at h ⊢
              exact ih fL script' e' _ h

/-- C8: if an `execute` call drains the composed request stream without an
early exit (that is, it returns the `finished` kind), the state is marked
completed; in particular, with an empty retry slot and an empty (or
exhausted) memoized initial-request sequence, a single call performs zero
exchanges, returns `finished`, and marks the state completed. -/
theorem c8_completion (cfg : ExecCfg) (state : EcuState)
    (initial : List Packet) (script : List SockOutcome) (e : Enumerator) :
    ((execute cfg state initial script e).1 = .finished →
      alookup (execute cfg state initial script e).2.1.state_completed state
        = some true) ∧
    (get_retry_iterator e state = [] →
      (alookup e.request_iterators state).getD initial = [] →
      (execute cfg state initial script e).1 = .finished ∧
      (execute cfg state initial script e).2.2 = [] ∧
      alookup (execute cfg state initial script e).2.1.state_completed state
        = some true) := by
  constructor
  · intro h
    simp only [execute] at h ⊢
    exact loopRetry_finished cfg state _ _ script _ [] h
  · intro h1 h2
    cases hreg : alookup e.request_iterators state with
    | some l =>
        have hl : l = [] := by
          rw [hreg] at h2
          exact h2
        subst hl
        have hx : execute cfg state initial script e
            = (.finished, e.markCompleted state, []) := by
          simp [execute, hreg, h1, loopRetry, loopFresh]
        rw [hx]
        exact ⟨rfl, rfl, by
          simp [Enumerator.markCompleted, alookup_aupdate_self]⟩
    | none =>
        have hl : initial = [] := by
          rw [hreg] at h2
          exact h2
        subst hl
        have hretry : get_retry_iterator (e.setRegistry state []) state
            = get_retry_iterator e state := rfl
        have hmemo : alookup (e.setRegistry state
            []).request_iterators state = some [] := by
          simp [Enumerator.setRegistry, alookup_aupdate_self]
        have hx : execute cfg state [] script e
            = (.finished, (e.setRegistry state []).markCompleted state,
                []) := by
          simp only [execute, hreg, Option.isSome_none, Bool.false_eq_true,
            if_false, hmemo, Option.getD_some, hretry, h1, loopRetry,
            loopFresh]
        rw [hx]
        exact ⟨rfl, rfl, by
          simp [Enumerator.markCompleted, alookup_aupdate_self]⟩

/-- Witness for C8: a state with empty retry slot and an empty initial
request generator is marked completed by one `execute` call with zero
exchanges. -/
theorem c8_completion_witness :
    (execute cfgDemo 0 [] [] initEnum).1 = .finished ∧
    (execute cfgDemo 0 [] [] initEnum).2.2 = [] ∧
    alookup (execute cfgDemo 0 [] [] initEnum).2.1.state_completed 0
      = some true :=
  (c8_completion cfgDemo 0 [] [] initEnum).2 rfl rfl

/-! ### C3: transient transport failures -/

lemma loopFresh_raised (cfg : ExecCfg) (state : EcuState) :
    ∀ (l : List Packet) (script : List SockOutcome) (e : Enumerator)
      (tr : List ExchRec),
      ∃ Δ, (loopFresh cfg state l script e tr).2.2 = tr ++ Δ ∧
        (∀ x ∈ Δ, x.out = .exn →
          (loopFresh cfg state l script e tr).1 = .raised) ∧
        ((loopFresh cfg state l script e tr).1 = .raised →
          ∃ pre last, Δ = pre ++ [last] ∧ last.out = .exn ∧
            (loopFresh cfg state l script e tr).2.1.retryLookup state
              = some ((last.slotBefore).getD (.pkt last.req))) := by
  intro l
  induction l with
  | nil =>
      intro script e tr
      exact ⟨[], by simp [loopFresh], by simp, by simp [loopFresh]⟩
  | cons req rest ih =>
      intro script e tr
      cases script with
      | nil =>
          exact ⟨[], by simp [loopFresh], by simp, by simp [loopFresh]⟩
      | cons out script' =>
          cases hex : exchange cfg state req out (e.setRegistry state rest) with
          | halt k e' =>
              obtain ⟨hk_iff, -, -, hslot⟩ := exchange_halt_kind cfg state
                req out (e.setRegistry state rest) k e' hex
              have hres : loopFresh cfg state (req :: rest) (out :: script')
                  e tr = (k, e', tr ++ [⟨req, (e.setRegistry state
                    rest).retryLookup state, out⟩]) := by
                simp [loopFresh, hex]
              refine ⟨[⟨req, (e.setRegistry state rest).retryLookup state,
                out⟩], by simp [hres], ?_, ?_⟩
              · intro x hx hout
                simp only [List.mem_singleton] at hx
                subst hx
                simp only at hout
                rw [hres]
                exact hk_iff.mpr hout
              · intro h
                rw [hres] at h
                have hout : out = .exn := hk_iff.mp h
                refine ⟨[], ⟨req, (e.setRegistry state rest).retryLookup
                  state, out⟩, by simp, hout, ?_⟩
                rw [hres]
                exact hslot hout
          | cont e' =>
              obtain ⟨res, now, hout⟩ := exchange_cont_shape cfg state req
                out (e.setRegistry state rest) e' hex
              have hres : loopFresh cfg state (req :: rest) (out :: script')
                  e tr = loopFresh cfg state rest script' e'
                    (tr ++ [⟨req, (e.setRegistry state rest).retryLookup
                      state, out⟩]) := by
                simp [loopFresh, hex]
              obtain ⟨Δ', h1, h2, h3⟩ := ih script' e'
                (tr ++ [⟨req, (e.setRegistry state rest).retryLookup state,
                  out⟩])
              refine ⟨⟨req, (e.setRegistry state rest).retryLookup state,
                out⟩ :: Δ', ?_, ?_, ?_⟩
              · rw [hres, h1]
                simp
              · intro x hx hxo
                rcases List.mem_cons.mp hx with hx | hx
                · subst hx
                  simp only at hxo
                  rw [hxo] at hout
                  cases hout
                · rw [hres]
                  exact h2 x hx hxo
              · intro h
                rw [hres] at h
                obtain ⟨pre, last, hΔ, hlast, hslot'⟩ := h3 h
                refine ⟨⟨req, (e.setRegistry state rest).retryLookup state,
                  out⟩ :: pre, last, by simp [hΔ], hlast, ?_⟩
                rw [hres]
                exact hslot'

lemma loopRetry_raised (cfg : ExecCfg) (state : EcuState) :
    ∀ (rL fL : List Packet) (script : List SockOutcome) (e : Enumerator)
      (tr : List ExchRec),
      ∃ Δ, (loopRetry cfg state rL fL script e tr).2.2 = tr ++ Δ ∧
        (∀ x ∈ Δ, x.out = .exn →
          (loopRetry cfg state rL fL script e tr).1 = .raised) ∧
        ((loopRetry cfg state rL fL script e tr).1 = .raised →
          ∃ pre last, Δ = pre ++ [last] ∧ last.out = .exn ∧
            (loopRetry cfg state rL fL script e tr).2.1.retryLookup state
              = some ((last.slotBefore).getD (.pkt last.req))) := by
  intro rL
  induction rL with
  | nil =>
      intro fL script e tr
      obtain ⟨Δ, h1, h2, h3⟩ := loopFresh_raised cfg state fL script e tr
      exact ⟨Δ, by simpa [loopRetry] using h1, by simpa [loopRetry] using h2,
        by simpa [loopRetry] using h3⟩
  | cons req rest ih =>
      intro fL script e tr
      cases script with
      | nil =>
          exact ⟨[], by simp [loopRetry], by simp, by simp [loopRetry]⟩
      | cons out script' =>
          cases hex : exchange cfg state req out e with
          | halt k e' =>
              obtain ⟨hk_iff, -, -, hslot⟩ := exchange_halt_kind cfg state
                req out e k e' hex
              have hres : loopRetry cfg state (req :: rest) fL
                  (out :: script') e tr
                  = (k, e', tr ++ [⟨req, e.retryLookup state, out⟩]) := by
                simp [loopRetry, hex]
              refine ⟨[⟨req, e.retryLookup state, out⟩], by simp [hres],
                ?_, ?_⟩
              · intro x hx hout
                simp only [List.mem_singleton] at hx
                subst hx
                simp only at hout
                rw [hres]
                exact hk_iff.mpr hout
              · intro h
                rw [hres] at h
                have hout : out = .exn := hk_iff.mp h
                refine ⟨[], ⟨req, e.retryLookup state, out⟩, by simp, hout,
                  ?_⟩
                rw [hres]
                exact hslot hout
          | cont e' =>
              obtain ⟨res, now, hout⟩ := exchange_cont_shape cfg state req
                out e e' hex
              have hres : loopRetry cfg state (req :: rest) fL
                  (out :: script') e tr
                  = loopRetry cfg state rest fL script' e'
                      (tr ++ [⟨req, e.retryLookup state, out⟩]) := by
                simp [loopRetry, hex]
              obtain ⟨Δ', h1, h2, h3⟩ := ih fL script' e'
                (tr ++ [⟨req, e.retryLookup state, out⟩])
              refine ⟨⟨req, e.retryLookup state, out⟩ :: Δ', ?_, ?_, ?_⟩
              · rw [hres, h1]
                simp
              · intro x hx hxo
                rcases List.mem_cons.mp hx with hx | hx
                · subst hx
                  simp only at hxo
                  rw [hxo] at hout
                  cases hout
                · rw [hres]
                  exact h2 x hx hxo
              · intro h
                rw [hres] at h
                obtain ⟨pre, last, hΔ, hlast, hslot'⟩ := h3 h
                exact ⟨⟨req, e.retryLookup state, out⟩ :: pre, last,
                  by simp [hΔ], hlast, by rw [hres]; exact hslot'⟩

/-- C3: a transient transport failure (`OSError`/`ValueError`/
`Scapy_Exception`, modelled as the `exn` outcome) always propagates: any
exchange whose outcome is an exception ends the `execute` call with the
`raised` kind, so it is the last exchange of the call; and at that
exchange, if no retry was pending for `state` the just-sent request is
installed in the retry slot before propagation, while a pending retry is
left as it was. -/
theorem c3_transport_failure (cfg : ExecCfg) (state : EcuState)
    (initial : List Packet) (script : List SockOutcome) (e : Enumerator) :
    (∀ x ∈ (execute cfg state initial script e).2.2, x.out = .exn →
      (execute cfg state initial script e).1 = .raised) ∧
    ((execute cfg state initial script e).1 = .raised →
      ∃ pre last,
        (execute cfg state initial script e).2.2 = pre ++ [last] ∧
        last.out = .exn ∧
        (execute cfg state initial script e).2.1.retryLookup state
          = some ((last.slotBefore).getD (.pkt last.req))) := by
  simp only [execute]
  obtain ⟨Δ, h1, h2, h3⟩ := loopRetry_raised cfg state
    (get_retry_iterator (if (alookup e.request_iterators state).isSome then e
      else e.setRegistry state initial) state)
    ((alookup (if (alookup e.request_iterators state).isSome then e
      else e.setRegistry state initial).request_iterators state).getD initial)
    script
    (if (alookup e.request_iterators state).isSome then e
      else e.setRegistry state initial) []
  simp only [List.nil_append] at h1
  rw [h1]
  exact ⟨h2, fun h => h3 h⟩

/-- Witness for C3: a first-exchange exception with no pending retry ends
the call `raised` and installs the request in the retry slot. -/
theorem c3_transport_failure_witness :
    ((execute cfgDemo 0 [reqDemo] [.exn] initEnum).1 = .raised) ∧
    (∃ pre last,
      (execute cfgDemo 0 [reqDemo] [.exn] initEnum).2.2 = pre ++ [last] ∧
      last.out = .exn ∧
      (execute cfgDemo 0 [reqDemo] [.exn] initEnum).2.1.retryLookup 0
        = some ((last.slotBefore).getD (.pkt last.req))) :=
  ⟨(c3_transport_failure cfgDemo 0 [reqDemo] [.exn] initEnum).1
      ⟨reqDemo, none, .exn⟩ (by decide) rfl,
   (c3_transport_failure cfgDemo 0 [reqDemo] [.exn] initEnum).2
      ((c3_transport_failure cfgDemo 0 [reqDemo] [.exn] initEnum).1
        ⟨reqDemo, none, .exn⟩ (by decide) rfl)⟩

/-! ### C2: result recording -/

/-- Observable projection of a stored `ScanResult`: state, request bytes,
response bytes, timestamps (identity of the interned instances ignored). -/
def projR (r : ScanResult) : EcuState × Bytes × Option Bytes × ℚ × Option ℚ :=
  (r.state, r.req.content, r.resp.map (·.content), r.req_ts, r.resp_ts)

/-- The `ScanResult` projection an exchange should have appended:
some value for an exchange that completed with the socket still open,
`none` for an exception or a closed socket. -/
def projX (state : EcuState) (x : ExchRec) :
    Option (EcuState × Bytes × Option Bytes × ℚ × Option ℚ) :=
  match x.out with
  | .recv res false _ =>
      some (state, x.req.content, res.map (·.content),
        x.req.sent_time.getD 0, res.map (·.time))
  | _ => none

lemma TableWF_congr (e e' : Enumerator)
    (h : e'.result_packets = e.result_packets) (hT : TableWF e) :
    TableWF e' := by
  intro cp hcp
  rw [h] at hcp
  exact hT cp hcp

lemma store_result_proj (state : EcuState) (req : Packet)
    (res : Option Packet) (e : Enumerator) (hT : TableWF e) :
    (store_result state req res e).results.map projR
      = e.results.map projR
        ++ [(state, req.content, res.map (·.content),
             req.sent_time.getD 0, res.map (·.time))] := by
  obtain ⟨q, hq, hqc⟩ := alookup_intern_self e req hT
  cases res with
  | none =>
      simp only [store_result, List.map_append, intern_results]
      simp [projR, hq, hqc]
  | some rr =>
      have hT1 : TableWF (intern e req) := TableWF_intern e req hT
      obtain ⟨q2, hq2, hq2c⟩ := alookup_intern_self (intern e req) rr hT1
      have hq' : alookup (intern (intern e req) rr).result_packets
          req.content = some q := by
        rw [alookup_intern_of_isSome _ rr _ (by simp [hq])]
        exact hq
      simp only [store_result, List.map_append, intern_results]
      simp [projR, hq', hqc, hq2, hq2c]

lemma exchange_proj (cfg : ExecCfg) (state : EcuState) (req : Packet)
    (out : SockOutcome) (e : Enumerator) (hT : TableWF e) :
    TableWF (exchange cfg state req out e).enum ∧
    (exchange cfg state req out e).enum.results.map projR
      = e.results.map projR
        ++ (projX state ⟨req, e.retryLookup state, out⟩).toList := by
  cases out with
  | exn =>
      simp only [exchange]
      cases hr : e.retryLookup state with
      | none =>
          simp only [hr, StepRes.enum]
          exact ⟨hT, by simp [projX, Enumerator.setRetry]⟩
      | some s =>
          simp only [hr, StepRes.enum]
          exact ⟨hT, by simp [projX]⟩
  | recv res closed now =>
      cases closed with
      | true =>
          simp only [exchange, if_true, StepRes.enum]
          exact ⟨hT, by simp [projX]⟩
      | false =>
          have hT1 : TableWF (store_result state req res e) :=
            TableWF_store state req res e hT
          have hframe := evaluate_frame cfg.nrcOf cfg.isMod cfg.applyMod
            cfg.opts state req res (store_result state req res e)
          have hT2 : TableWF (evaluate_response cfg.nrcOf cfg.isMod
              cfg.applyMod cfg.opts state req res
              (store_result state req res e)).2 :=
            TableWF_congr _ _ hframe.2.2 hT1
          have hproj : (evaluate_response cfg.nrcOf cfg.isMod cfg.applyMod
              cfg.opts state req res
              (store_result state req res e)).2.results.map projR
              = e.results.map projR
                ++ (projX state ⟨req, e.retryLookup state,
                    .recv res false now⟩).toList := by
            rw [hframe.2.1, store_result_proj state req res e hT]
            simp [projX]
          simp only [exchange, Bool.false_eq_true, if_false]
          split
          · exact ⟨hT2, hproj⟩
          · split
            · exact ⟨hT2, hproj⟩
            · exact ⟨hT2, hproj⟩

lemma filterMap_singleton {α β : Type} (f : α → Option β) (a : α) :
    List.filterMap f [a] = (f a).toList := by
  cases h : f a <;> simp [List.filterMap_cons, h]

lemma toList_append_filterMap {α β : Type} (f : α → Option β) (a : α)
    (l : List α) :
    (f a).toList ++ List.filterMap f l = List.filterMap f (a :: l) := by
  cases h : f a <;> simp [List.filterMap_cons, h]

lemma loopFresh_proj (cfg : ExecCfg) (state : EcuState) :
    ∀ (l : List Packet) (script : List SockOutcome) (e : Enumerator)
      (tr : List ExchRec), TableWF e →
      ∃ Δ, (loopFresh cfg state l script e tr).2.2 = tr ++ Δ ∧
        (loopFresh cfg state l script e tr).2.1.results.map projR
          = e.results.map projR ++ Δ.filterMap (projX state) ∧
        TableWF (loopFresh cfg state l script e tr).2.1 := by
  intro l
  induction l with
  | nil =>
      intro script e tr hT
      exact ⟨[], by simp [loopFresh], by
        simp [loopFresh, Enumerator.markCompleted], by
        simpa [loopFresh, Enumerator.markCompleted] using hT⟩
  | cons req rest ih =>
      intro script e tr hT
      cases script with
      | nil => exact ⟨[], by simp [loopFresh], by simp [loopFresh], by
          simpa [loopFresh] using hT⟩
      | cons out script' =>
          have hT0 : TableWF (e.setRegistry state rest) := hT
          obtain ⟨hTx, hpx⟩ := exchange_proj cfg state req out
            (e.setRegistry state rest) hT0
          cases hex : exchange cfg state req out (e.setRegistry state rest) with
          | halt k e' =>
              rw [hex] at hTx hpx
              simp only [StepRes.enum] at hTx hpx
              have hpx' : e'.results.map projR
                  = e.results.map projR
                    ++ (projX state ⟨req, (e.setRegistry state
                        rest).retryLookup state, out⟩).toList := hpx
              have hres : loopFresh cfg state (req :: rest) (out :: script')
                  e tr = (k, e', tr ++ [⟨req, (e.setRegistry state
                    rest).retryLookup state, out⟩]) := by
                simp [loopFresh, hex]
              refine ⟨[⟨req, (e.setRegistry state rest).retryLookup state,
                out⟩], by rw [hres], ?_, by rw [hres]; exact hTx⟩
              rw [hres]
              show e'.results.map projR = e.results.map projR
                ++ List.filterMap (projX state)
                  [⟨req, (e.setRegistry state rest).retryLookup state, out⟩]
              rw [filterMap_singleton]
              exact hpx'
          | cont e' =>
              rw [hex] at hTx hpx
              simp only [StepRes.enum] at hTx hpx
              have hpx' : e'.results.map projR
                  = e.results.map projR
                    ++ (projX state ⟨req, (e.setRegistry state
                        rest).retryLookup state, out⟩).toList := hpx
              have hres : loopFresh cfg state (req :: rest) (out :: script')
                  e tr = loopFresh cfg state rest script' e'
                    (tr ++ [⟨req, (e.setRegistry state rest).retryLookup
                      state, out⟩]) := by
                simp [loopFresh, hex]
              obtain ⟨Δ', h1, h2, h3⟩ := ih script' e'
                (tr ++ [⟨req, (e.setRegistry state rest).retryLookup state,
                  out⟩]) hTx
              refine ⟨⟨req, (e.setRegistry state rest).retryLookup state,
                out⟩ :: Δ', by rw [hres, h1]; simp, ?_,
                by rw [hres]; exact h3⟩
              rw [hres, h2, hpx', List.append_assoc, toList_append_filterMap]

lemma loopRetry_proj (cfg : ExecCfg) (state : EcuState) :
    ∀ (rL fL : List Packet) (script : List SockOutcome) (e : Enumerator)
      (tr : List ExchRec), TableWF e →
      ∃ Δ, (loopRetry cfg state rL fL script e tr).2.2 = tr ++ Δ ∧
        (loopRetry cfg state rL fL script e tr).2.1.results.map projR
          = e.results.map projR ++ Δ.filterMap (projX state) ∧
        TableWF (loopRetry cfg state rL fL script e tr).2.1 := by
  intro rL
  induction rL with
  | nil =>
      intro fL script e tr hT
      obtain ⟨Δ, h1, h2, h3⟩ := loopFresh_proj cfg state fL script e tr hT
      exact ⟨Δ, by simpa [loopRetry] using h1, by simpa [loopRetry] using h2,
        by simpa [loopRetry] using h3⟩
  | cons req rest ih =>
      intro fL script e tr hT
      cases script with
      | nil => exact ⟨[], by simp [loopRetry], by simp [loopRetry], by
          simpa [loopRetry] using hT⟩
      | cons out script' =>
          obtain ⟨hTx, hpx⟩ := exchange_proj cfg state req out e hT
          cases hex : exchange cfg state req out e with
          | halt k e' =>
              rw [hex] at hTx hpx
              simp only [StepRes.enum] at hTx hpx
              have hres : loopRetry cfg state (req :: rest) fL
                  (out :: script') e tr
                  = (k, e', tr ++ [⟨req, e.retryLookup state, out⟩]) := by
                simp [loopRetry, hex]
              refine ⟨[⟨req, e.retryLookup state, out⟩], by rw [hres],
                ?_, by rw [hres]; exact hTx⟩
              rw [hres]
              show e'.results.map projR = e.results.map projR
                ++ List.filterMap (projX state)
                  [⟨req, e.retryLookup state, out⟩]
              rw [filterMap_singleton]
              exact hpx
          | cont e' =>
              rw [hex] at hTx hpx
              simp only [StepRes.enum] at hTx hpx
              have hres : loopRetry cfg state (req :: rest) fL
                  (out :: script') e tr
                  = loopRetry cfg state rest fL script' e'
                      (tr ++ [⟨req, e.retryLookup state, out⟩]) := by
                simp [loopRetry, hex]
              obtain ⟨Δ', h1, h2, h3⟩ := ih fL script' e'
                (tr ++ [⟨req, e.retryLookup state, out⟩]) hTx
              refine ⟨⟨req, e.retryLookup state, out⟩ :: Δ',
                by rw [hres, h1]; simp, ?_, by rw [hres]; exact h3⟩
              rw [hres, h2, hpx, List.append_assoc, toList_append_filterMap]

/-- C2, amended: under a well-formed interned table, the results appended
by one `execute` call are exactly one `ScanResult` — carrying the state,
the request bytes, the optional response bytes and the two timestamps —
for every exchange that completed with a response or timeout and after
which the socket did not report itself closed (this includes the final
exchange when evaluation stops the call: it is stored before evaluation
runs); an exchange followed by `socket.closed` appends nothing, and an
exception appends nothing. -/
theorem c2_result_recording (cfg : ExecCfg) (state : EcuState)
    (initial : List Packet) (script : List SockOutcome) (e : Enumerator)
    (hT : TableWF e) :
    (execute cfg state initial script e).2.1.results.map projR
      = e.results.map projR
        ++ (execute cfg state initial script e).2.2.filterMap
            (projX state) := by
  cases hreg : alookup e.request_iterators state with
  | some l =>
      have hx : execute cfg state initial script e
          = loopRetry cfg state (get_retry_iterator e state) l script e [] := by
        simp [execute, hreg]
      obtain ⟨Δ, h1, h2, h3⟩ := loopRetry_proj cfg state
        (get_retry_iterator e state) l script e [] hT
      simp only [List.nil_append] at h1
      rw [hx, h1, h2]
  | none =>
      have hretry : get_retry_iterator (e.setRegistry state initial) state
          = get_retry_iterator e state := rfl
      have hreg1 : alookup (e.setRegistry state
          initial).request_iterators state = some initial := by
        simp [Enumerator.setRegistry, alookup_aupdate_self]
      have hx : execute cfg state initial script e
          = loopRetry cfg state (get_retry_iterator e state) initial script
              (e.setRegistry state initial) [] := by
        simp [execute, hreg, hreg1, hretry]
      have hT1 : TableWF (e.setRegistry state initial) := hT
      obtain ⟨Δ, h1, h2, h3⟩ := loopRetry_proj cfg state
        (get_retry_iterator e state) initial script
        (e.setRegistry state initial) [] hT1
      simp only [List.nil_append] at h1
      have h2' : (loopRetry cfg state (get_retry_iterator e state) initial
          script (e.setRegistry state initial) []).2.1.results.map projR
          = e.results.map projR ++ Δ.filterMap (projX state) := h2
      rw [hx, h1, h2']

/-- C2, counterexample: an exchange that completes with a response but
after which the transport reports itself closed is *not* recorded: the
`execute` call returns immediately and the result store stays empty. -/
theorem c2_counterexample :
    ((execute cfgDemo 0 [reqDemo] [.recv (some posDemo) true 1]
        initEnum).1 = .closedStop) ∧
    ((execute cfgDemo 0 [reqDemo] [.recv (some posDemo) true 1]
        initEnum).2.2
      = [⟨reqDemo, none, .recv (some posDemo) true 1⟩]) ∧
    ((execute cfgDemo 0 [reqDemo] [.recv (some posDemo) true 1]
        initEnum).2.1.results = []) := by decide

/-- Witness for C2 (amended) at a concrete completed exchange. -/
theorem c2_result_recording_witness :
    (execute cfgDemo 0 [reqDemo] [.recv (some posDemo) false 1]
        initEnum).2.1.results.map projR
      = initEnum.results.map projR
        ++ (execute cfgDemo 0 [reqDemo] [.recv (some posDemo) false 1]
            initEnum).2.2.filterMap (projX 0) :=
  c2_result_recording cfgDemo 0 [reqDemo]
    [.recv (some posDemo) false 1] initEnum
    (by intro cp h; simp [initEnum] at h)

end ScannerEnum
